import Mathlib

/-!
# Chiaki remote-play crypto (lib/src/rpcrypt.c)

A shallow embedding of `rpcrypt.c`: the key scrambler
(`chiaki_rpcrypt_bright_ambassador`, `chiaki_rpcrypt_init`), the IV deriver
(`chiaki_rpcrypt_generate_iv`) and the stream crypter (`chiaki_rpcrypt_crypt`,
`chiaki_rpcrypt_encrypt`, `chiaki_rpcrypt_decrypt`).

Conventions.
* A byte (`uint8_t`) is a `Nat`; wrap-around is written out with `% 256`.
  A byte array is a `List Nat`; `IsKey` says that a list is a well-formed
  16-byte array.
* `size_t` is 64 bits wide, `int` is 32 bits wide; the casts `(int)x` are
  truncations to 32 bits (two's complement).
* The OpenSSL calls (`HMAC`, `EVP_CIPHER_CTX_new`, `EVP_EncryptInit_ex`,
  `EVP_CIPHER_CTX_set_padding`, `EVP_EncryptUpdate`, ...) and `malloc` are
  not part of the file; they are the fields of a `Primitives` record that every
  function takes as its first argument.
-/

namespace Chiaki

/-! ## Data model -/

/-- Modelled from the spec: `CHIAKI_KEY_BYTES` is defined in the header
`chiaki/rpcrypt.h`, which is not part of the sources; the spec fixes every key,
nonce, seed and IV to exactly 16 bytes. -/
def CHIAKI_KEY_BYTES : Nat := 16

/-- Modelled from the spec: the error codes of `chiaki/common.h` that
`rpcrypt.c` returns (success, the generic cryptographic-primitive error, the
memory error). The header itself is not part of the sources. -/
inductive ChiakiErrorCode where
  | CHIAKI_ERR_SUCCESS
  | CHIAKI_ERR_UNKNOWN
  | CHIAKI_ERR_MEMORY
  deriving DecidableEq, Repr

open ChiakiErrorCode

/-- The struct `ChiakiRPCrypt`: two arrays `uint8_t bright[CHIAKI_KEY_BYTES]`
and `uint8_t ambassador[CHIAKI_KEY_BYTES]`. -/
structure ChiakiRPCrypt where
  bright : List Nat
  ambassador : List Nat
  deriving DecidableEq, Repr

/-- A well-formed 16-byte array: sixteen entries, each a byte. -/
def IsKey (k : List Nat) : Prop :=
  k.length = CHIAKI_KEY_BYTES ∧ ∀ b ∈ k, b < 256

instance (k : List Nat) : Decidable (IsKey k) := by
  unfold IsKey; infer_instance

/-- Conversion of a C `int` expression to `uint8_t`: reduction modulo 256. -/
def u8 (x : Int) : Nat := (x % 256).toNat

/-! ## Key scrambler -/

/-- The table `echo_a` of `chiaki_rpcrypt_bright_ambassador`. -/
def echo_a : List Nat :=
  [0x01, 0x49, 0x87, 0x9b, 0x65, 0x39, 0x8b, 0x39, 0x4b, 0x3a, 0x8d, 0x48, 0xc3, 0x0a, 0xef, 0x51]

/-- The table `echo_b` of `chiaki_rpcrypt_bright_ambassador`. -/
def echo_b : List Nat :=
  [0xe1, 0xec, 0x9c, 0x3a, 0xdd, 0xbd, 0x08, 0x85, 0xfc, 0x0e, 0x1d, 0x78, 0x90, 0x32, 0xc0, 0x04]

/-- Body of the first loop, at index `i` with `n = nonce[i]`:
`v = nonce[i]; v -= i; v -= 0x27; v ^= echo_a[i]; ambassador[i] = v`.
Each compound assignment on the `uint8_t v` wraps modulo 256. -/
def ambassador_body (i n : Nat) : Nat :=
  let v := n
  let v := u8 ((v : Int) - (i : Int))
  let v := u8 ((v : Int) - 0x27)
  let v := u8 ((v ^^^ echo_a.getD i 0 : Nat) : Int)
  v

/-- Body of the second loop, at index `i` with `n = nonce[i]` and
`m = morning[i]`:
`v = morning[i]; v -= i; v += 0x34; v ^= echo_b[i]; v ^= nonce[i]; bright[i] = v`. -/
def bright_body (i n m : Nat) : Nat :=
  let v := m
  let v := u8 ((v : Int) - (i : Int))
  let v := u8 ((v : Int) + 0x34)
  let v := u8 ((v ^^^ echo_b.getD i 0 : Nat) : Int)
  let v := u8 ((v ^^^ n : Nat) : Int)
  v

/-- The function `chiaki_rpcrypt_bright_ambassador`: both loops run over
`i = 0 .. CHIAKI_KEY_BYTES - 1` and fill the two output arrays, returned here
as the pair `(bright, ambassador)`. -/
def chiaki_rpcrypt_bright_ambassador (nonce morning : List Nat) : List Nat × List Nat :=
  let ambassador := (List.range CHIAKI_KEY_BYTES).map fun i => ambassador_body i (nonce.getD i 0)
  let bright := (List.range CHIAKI_KEY_BYTES).map fun i =>
    bright_body i (nonce.getD i 0) (morning.getD i 0)
  (bright, ambassador)

/-- The function `chiaki_rpcrypt_init`: the outputs of
`chiaki_rpcrypt_bright_ambassador` are stored in the struct. -/
def chiaki_rpcrypt_init (nonce morning : List Nat) : ChiakiRPCrypt :=
  let r := chiaki_rpcrypt_bright_ambassador nonce morning
  { bright := r.1, ambassador := r.2 }

/-! ## External primitives -/

/-- Outcome of one call `EVP_EncryptUpdate(ctx, out, &outl, in, inl)` or
`EVP_DecryptUpdate(...)`: `ret` is "the return value is non-zero", `outl` the
value left in `*outl`, `out` the bytes the call stored at `out`. -/
structure UpdateResult where
  ret : Bool
  outl : Int
  out : List Nat
  deriving DecidableEq, Repr

/-- The calls that `rpcrypt.c` makes into OpenSSL and libc. Each field is an
arbitrary function of the arguments of the call.
* `ctx_new`: `EVP_CIPHER_CTX_new()` returned a non-null context.
* `HMAC key msg`: `HMAC(EVP_sha256(), key, _, msg, _, hmac, &hmac_len)`;
  `none` is the null return value, `some d` a digest `d` of `hmac_len = d.length`
  bytes stored in `hmac`.
* `cipher_init encrypt key iv`: `EVP_EncryptInit_ex` (`encrypt = true`) or
  `EVP_DecryptInit_ex` with `EVP_aes_128_cfb128()` returned non-zero.
* `set_padding`: `EVP_CIPHER_CTX_set_padding(ctx, 0)` returned non-zero.
* `malloc n`: `malloc(n)` returned a non-null pointer.
* `cipher_update encrypt key iv data inl`: `EVP_EncryptUpdate` or
  `EVP_DecryptUpdate` on a context initialised with `key` and `iv`, reading at
  a pointer to `data` with length argument `inl`. -/
structure Primitives where
  ctx_new : Bool
  HMAC : List Nat → List Nat → Option (List Nat)
  cipher_init : Bool → List Nat → List Nat → Bool
  set_padding : Bool
  malloc : Nat → Bool
  cipher_update : Bool → List Nat → List Nat → List Nat → Int → UpdateResult

/-- Width of `size_t`. -/
def SIZE_BITS : Nat := 64

/-- The cast `(int)x` of a `size_t` value: truncation to 32 bits, read as a
two's-complement number. -/
def int_of_size (x : Nat) : Int :=
  if x % 2 ^ 32 < 2 ^ 31 then ((x % 2 ^ 32 : Nat) : Int) else ((x % 2 ^ 32 : Nat) : Int) - 2 ^ 32

/-- Memory of `mem.length` bytes after a callee stored the bytes `out` at its
start (in-place update of a buffer). -/
def memwrite (mem out : List Nat) : List Nat :=
  out.take mem.length ++ mem.drop out.length

/-- CFB128 encryption over a block function `E key block`, byte by byte as in
the reference formulation: `ivec` is the 16-byte feedback register, `num` the
position in it; when `num = 0` the register is replaced by its encryption, the
output byte is `ivec[num] XOR in`, and the output byte is fed back. -/
def cfb128_encrypt (E : List Nat → List Nat → List Nat) (key : List Nat) :
    List Nat → Nat → List Nat → List Nat
  | _, _, [] => []
  | ivec, num, p :: ps =>
    let ivec := if num = 0 then E key ivec else ivec
    let c := ivec.getD num 0 ^^^ p
    c :: cfb128_encrypt E key (ivec.set num c) ((num + 1) % 16) ps

/-- CFB128 decryption over the same block function: the output byte is
`ivec[num] XOR in` and the input (ciphertext) byte is fed back. -/
def cfb128_decrypt (E : List Nat → List Nat → List Nat) (key : List Nat) :
    List Nat → Nat → List Nat → List Nat
  | _, _, [] => []
  | ivec, num, c :: cs =>
    let ivec := if num = 0 then E key ivec else ivec
    let p := ivec.getD num 0 ^^^ c
    p :: cfb128_decrypt E key (ivec.set num c) ((num + 1) % 16) cs

/-- CFB128 in the direction selected by `encrypt`, from a fresh context
(`num = 0`). -/
def cfb128 (E : List Nat → List Nat → List Nat) (encrypt : Bool) (key iv data : List Nat) :
    List Nat :=
  if encrypt then cfb128_encrypt E key iv 0 data else cfb128_decrypt E key iv 0 data

/-- The cipher-update primitive is AES-128-CFB128 with `E` as the block
function: whenever a call reports success and `*outl = inl`, the bytes it
stored are the CFB128 transform of the first `inl` bytes it was given. -/
def IsCFB128 (P : Primitives) (E : List Nat → List Nat → List Nat) : Prop :=
  ∀ (encrypt : Bool) (key iv data : List Nat) (inl : Int),
    (P.cipher_update encrypt key iv data inl).ret = true →
    (P.cipher_update encrypt key iv data inl).outl = inl →
    (P.cipher_update encrypt key iv data inl).out = cfb128 E encrypt key iv (data.take inl.toNat)

/-! ## IV deriver -/

/-- The array `hmac_key` of `chiaki_rpcrypt_generate_iv`. -/
def hmac_key : List Nat :=
  [0xac, 0x07, 0x88, 0x83, 0xc8, 0x3a, 0x1f, 0xe8, 0x11, 0x46, 0x3a, 0xf3, 0x9e, 0xe3, 0xe3, 0x77]

/-- The array `buf` of `chiaki_rpcrypt_generate_iv` when `HMAC` is called:
`memcpy(buf, rpcrypt->ambassador, CHIAKI_KEY_BYTES)` followed by the eight
stores `buf[CHIAKI_KEY_BYTES + k] = (uint8_t)((counter >> s) & 0xff)`. -/
def generate_iv_buf (rpcrypt : ChiakiRPCrypt) (counter : Nat) : List Nat :=
  rpcrypt.ambassador.take CHIAKI_KEY_BYTES ++
    [ u8 (((counter >>> 0x38) &&& 0xff : Nat) : Int),
      u8 (((counter >>> 0x30) &&& 0xff : Nat) : Int),
      u8 (((counter >>> 0x28) &&& 0xff : Nat) : Int),
      u8 (((counter >>> 0x20) &&& 0xff : Nat) : Int),
      u8 (((counter >>> 0x18) &&& 0xff : Nat) : Int),
      u8 (((counter >>> 0x10) &&& 0xff : Nat) : Int),
      u8 (((counter >>> 0x08) &&& 0xff : Nat) : Int),
      u8 (((counter >>> 0x00) &&& 0xff : Nat) : Int) ]

/-- The function `chiaki_rpcrypt_generate_iv`: `.error e` is the return value
`e` (the array `iv` is then not written), `.ok iv` is the return value
`CHIAKI_ERR_SUCCESS` with `iv` the sixteen bytes stored in `iv`. -/
def chiaki_rpcrypt_generate_iv (P : Primitives) (rpcrypt : ChiakiRPCrypt) (counter : Nat) :
    Except ChiakiErrorCode (List Nat) :=
  match P.HMAC (hmac_key.take CHIAKI_KEY_BYTES) (generate_iv_buf rpcrypt counter) with
  | none => .error CHIAKI_ERR_UNKNOWN
  | some hmac =>
    if hmac.length < CHIAKI_KEY_BYTES then .error CHIAKI_ERR_UNKNOWN
    else .ok (hmac.take CHIAKI_KEY_BYTES)

/-! ## Stream crypter -/

/-- The expression `((buf_size + CHIAKI_KEY_BYTES - 1) / CHIAKI_KEY_BYTES) *
CHIAKI_KEY_BYTES` of `chiaki_rpcrypt_crypt`, evaluated in `size_t` arithmetic
(each operation modulo `2 ^ 64`). -/
def padded_size (buf_size : Nat) : Nat :=
  ((buf_size + CHIAKI_KEY_BYTES - 1) % 2 ^ SIZE_BITS / CHIAKI_KEY_BYTES * CHIAKI_KEY_BYTES)
    % 2 ^ SIZE_BITS

/-- The static function `chiaki_rpcrypt_crypt`. The result is the returned
error code and the contents of the caller's buffer `buf` afterwards;
`buf_size` is `buf.length`. -/
def chiaki_rpcrypt_crypt (P : Primitives) (rpcrypt : ChiakiRPCrypt) (counter : Nat)
    (buf : List Nat) (encrypt : Bool) : ChiakiErrorCode × List Nat :=
  let buf_size := buf.length
  if !P.ctx_new then (CHIAKI_ERR_UNKNOWN, buf) else
  match chiaki_rpcrypt_generate_iv P rpcrypt counter with
  | .error err => (err, buf)
  | .ok iv =>
    if !P.cipher_init encrypt rpcrypt.bright iv then (CHIAKI_ERR_UNKNOWN, buf) else
    if !P.set_padding then (CHIAKI_ERR_UNKNOWN, buf) else
    if buf_size % CHIAKI_KEY_BYTES ≠ 0 then
      let padded_size := padded_size buf_size
      if !P.malloc padded_size then (CHIAKI_ERR_MEMORY, buf) else
      let tmp := buf ++ List.replicate (padded_size - buf_size) 0
      let outl := int_of_size padded_size
      let r := P.cipher_update encrypt rpcrypt.bright iv tmp outl
      let tmp := memwrite tmp r.out
      if !r.ret || r.outl ≠ int_of_size padded_size then (CHIAKI_ERR_UNKNOWN, buf)
      else (CHIAKI_ERR_SUCCESS, memwrite buf (tmp.take buf_size))
    else
      let outl := int_of_size buf_size
      let r := P.cipher_update encrypt rpcrypt.bright iv buf outl
      let buf := memwrite buf r.out
      if !r.ret then (CHIAKI_ERR_UNKNOWN, buf)
      else if r.outl ≠ int_of_size buf_size then (CHIAKI_ERR_UNKNOWN, buf)
      else (CHIAKI_ERR_SUCCESS, buf)

/-- The function `chiaki_rpcrypt_encrypt`. -/
def chiaki_rpcrypt_encrypt (P : Primitives) (rpcrypt : ChiakiRPCrypt) (counter : Nat)
    (buf : List Nat) : ChiakiErrorCode × List Nat :=
  chiaki_rpcrypt_crypt P rpcrypt counter buf true

/-- The function `chiaki_rpcrypt_decrypt`. -/
def chiaki_rpcrypt_decrypt (P : Primitives) (rpcrypt : ChiakiRPCrypt) (counter : Nat)
    (buf : List Nat) : ChiakiErrorCode × List Nat :=
  chiaki_rpcrypt_crypt P rpcrypt counter buf false


/-! ## Derived quantities used in the statements -/

/-- The length handed to the cipher-update primitive: `buf_size` when it is a
multiple of 16, `padded_size` otherwise. -/
def expected_size (buf_size : Nat) : Nat :=
  if buf_size % CHIAKI_KEY_BYTES ≠ 0 then padded_size buf_size else buf_size

/-- The bytes the cipher-update primitive operates on: the caller's buffer when
its length is a multiple of 16, otherwise the scratch copy `tmp` (the buffer
followed by `padded_size - buf_size` zero bytes). -/
def update_data (buf : List Nat) : List Nat :=
  buf ++ List.replicate (expected_size buf.length - buf.length) 0

/-- The one cipher-update call of `chiaki_rpcrypt_crypt`, for the IV `iv`. -/
def update_call (P : Primitives) (rpcrypt : ChiakiRPCrypt) (iv buf : List Nat) (encrypt : Bool) :
    UpdateResult :=
  P.cipher_update encrypt rpcrypt.bright iv (update_data buf)
    (int_of_size (expected_size buf.length))

/-- In-place CFB128 transform of the first `k` bytes of `data`. -/
def transform (E : List Nat → List Nat → List Nat) (encrypt : Bool) (key iv : List Nat) (k : Nat)
    (data : List Nat) : List Nat :=
  memwrite data (cfb128 E encrypt key iv (data.take k))

/-! ## Definitions taken from the specification, for comparison with the code -/

/-- Specification side: the counter "encoded as 8 bytes, most-significant-byte
first": byte `k` is digit `7 - k` of the counter in base 256. -/
def spec_counter_bytes (counter : Nat) : List Nat :=
  (List.range 8).map fun k => counter / 256 ^ (7 - k) % 256

/-- The big-endian value of a byte string. -/
def be_value (bytes : List Nat) : Nat :=
  bytes.foldl (fun acc b => acc * 256 + b) 0

/-- Specification side: the inverse of the scrambler at one position of the
nonce, `((ambassador[i] XOR echo_a[i]) + i + 0x27) mod 256`. -/
def spec_nonce_byte (i a : Nat) : Nat :=
  ((a ^^^ echo_a.getD i 0) + i + 0x27) % 256

/-- Specification side: the inverse of the scrambler at one position of the
seed, `((bright[i] XOR echo_b[i] XOR nonce[i]) + i - 0x34) mod 256`. -/
def spec_seed_byte (i n b : Nat) : Nat :=
  ((((b ^^^ echo_b.getD i 0 ^^^ n : Nat) : Int) + i - 0x34) % 256).toNat

/-- Specification side: the inverse map `(bright, ambassador) -> (nonce, seed)`. -/
def spec_unscramble (bright ambassador : List Nat) : List Nat × List Nat :=
  let nonce := (List.range 16).map fun i => spec_nonce_byte i (ambassador.getD i 0)
  let seed := (List.range 16).map fun i => spec_seed_byte i (nonce.getD i 0) (bright.getD i 0)
  (nonce, seed)

/-- The pairs of well-formed 16-byte arrays. -/
def KeyPairs : Set (List Nat × List Nat) :=
  {p | IsKey p.1 ∧ IsKey p.2}

/-! ## A reference instance of the primitives -/

/-- Behaviour of `EVP_EncryptUpdate` / `EVP_DecryptUpdate` for a CFB128 cipher
over the block function `E` on a freshly initialised context: a non-positive
`inl` stores nothing, sets `*outl = 0` and succeeds only for `inl = 0`;
otherwise the first `inl` bytes are transformed and `*outl = inl`. -/
def evp_update (E : List Nat → List Nat → List Nat) (encrypt : Bool) (key iv data : List Nat)
    (inl : Int) : UpdateResult :=
  if inl ≤ 0 then { ret := inl == 0, outl := 0, out := [] }
  else { ret := true, outl := inl, out := cfb128 E encrypt key iv (data.take inl.toNat) }

/-- Primitives without faults: every allocation and initialisation succeeds,
`HMAC` is the total function `H`, the cipher is CFB128 over `E`. -/
def nominal (E : List Nat → List Nat → List Nat) (H : List Nat → List Nat → List Nat) :
    Primitives where
  ctx_new := true
  HMAC := fun key msg => some (H key msg)
  cipher_init := fun _ _ _ => true
  set_padding := true
  malloc := fun _ => true
  cipher_update := evp_update E

/-- The fault-free primitives, except that `EVP_CIPHER_CTX_new` returns null. -/
def no_ctx (E : List Nat → List Nat → List Nat) (H : List Nat → List Nat → List Nat) :
    Primitives :=
  { nominal E H with ctx_new := false }

/-- The fault-free primitives, except that `malloc` returns null. -/
def no_malloc (E : List Nat → List Nat → List Nat) (H : List Nat → List Nat → List Nat) :
    Primitives :=
  { nominal E H with malloc := fun _ => false }

/-- The fault-free primitives, except that the cipher update returns zero
after it has stored its output. -/
def update_fails (E : List Nat → List Nat → List Nat) (H : List Nat → List Nat → List Nat) :
    Primitives :=
  { nominal E H with
    cipher_update := fun encrypt key iv data inl =>
      { evp_update E encrypt key iv data inl with ret := false } }

/-- A buffer of `2 ^ 32` zero bytes. -/
def buf_4GiB : List Nat := List.replicate (2 ^ 32) 0

/-- A small block function used to evaluate the code on concrete inputs. -/
def toy_block (key block : List Nat) : List Nat :=
  (List.range 16).map fun i => (key.getD i 0 + 7 * block.getD i 0 + i) % 256

/-- A small 32-byte keyed digest used to evaluate the code on concrete inputs. -/
def toy_digest (key msg : List Nat) : List Nat :=
  (List.range 32).map fun i => (key.getD (i % 16) 0 + 3 * msg.getD (i % 24) 0 + i) % 256

/-- Sixteen zero bytes. -/
def zero16 : List Nat := List.replicate 16 0

/-- A buffer of `2 ^ 32 + 1` zero bytes. -/
def buf_4GiB_1 : List Nat := List.replicate (2 ^ 32 + 1) 0

/-- The buffers of length `n`. -/
def Buffers (n : Nat) : Set (List Nat) :=
  {b | b.length = n}

/-! ## Auxiliary lemmas: bytes -/

theorem u8_lt (x : Int) : u8 x < 256 := by
  unfold u8; omega

theorem u8_of_lt {n : Nat} (h : n < 256) : u8 (n : Int) = n := by
  unfold u8; omega

theorem xor_byte_lt {a b : Nat} (ha : a < 256) (hb : b < 256) : a ^^^ b < 256 :=
  Nat.xor_lt_two_pow (n := 8) ha hb

theorem echo_a_lt (i : Nat) : echo_a.getD i 0 < 256 := by
  by_cases h : i < 16
  · interval_cases i <;> decide
  · rw [List.getD_eq_default _ _ (by simpa [echo_a] using h)]; decide

theorem echo_b_lt (i : Nat) : echo_b.getD i 0 < 256 := by
  by_cases h : i < 16
  · interval_cases i <;> decide
  · rw [List.getD_eq_default _ _ (by simpa [echo_b] using h)]; decide

theorem IsKey.getD_lt {k : List Nat} (h : IsKey k) (i : Nat) : k.getD i 0 < 256 := by
  by_cases hi : i < k.length
  · rw [List.getD_eq_getElem _ _ hi]; exact h.2 _ (List.getElem_mem _)
  · rw [List.getD_eq_default _ _ (by omega)]; decide

theorem ambassador_body_eq (i n : Nat) :
    ambassador_body i n = u8 ((n : Int) - i - 0x27) ^^^ echo_a.getD i 0 := by
  have h1 : u8 ((u8 ((n : Int) - i) : Int) - 0x27) = u8 ((n : Int) - i - 0x27) := by
    unfold u8; omega
  simp only [ambassador_body, h1]
  exact u8_of_lt (xor_byte_lt (u8_lt _) (echo_a_lt i))

theorem bright_body_eq (i n m : Nat) (hn : n < 256) :
    bright_body i n m = u8 ((m : Int) - i + 0x34) ^^^ echo_b.getD i 0 ^^^ n := by
  have h1 : u8 ((u8 ((m : Int) - i) : Int) + 0x34) = u8 ((m : Int) - i + 0x34) := by
    unfold u8; omega
  have h2 := xor_byte_lt (u8_lt ((m : Int) - i + 0x34)) (echo_b_lt i)
  simp only [bright_body, h1]
  rw [u8_of_lt h2, u8_of_lt (xor_byte_lt h2 hn)]


/-! ## Key scrambler: formulas and known vector -/

/-- C1: for every 16-byte nonce, every seed and every index `i < 16`, entry `i` of
the ambassador output is `((nonce[i] - i - 0x27) mod 256) XOR echo_a[i]` and
entry `i` of the bright output is
`((seed[i] - i + 0x34) mod 256) XOR echo_b[i] XOR nonce[i]`; both outputs have
sixteen entries and `chiaki_rpcrypt_init` stores exactly these two arrays
(ambassador from the nonce alone, bright from seed and nonce). -/
theorem C1_bright_ambassador_formula (nonce morning : List Nat) (hn : IsKey nonce)
    (i : Nat) (hi : i < 16) :
    (chiaki_rpcrypt_bright_ambassador nonce morning).2[i]? =
        some ((((nonce.getD i 0 : Int) - i - 0x27) % 256).toNat ^^^ echo_a.getD i 0) ∧
    (chiaki_rpcrypt_bright_ambassador nonce morning).1[i]? =
        some ((((morning.getD i 0 : Int) - i + 0x34) % 256).toNat ^^^ echo_b.getD i 0
          ^^^ nonce.getD i 0) ∧
    (chiaki_rpcrypt_bright_ambassador nonce morning).1.length = 16 ∧
    (chiaki_rpcrypt_bright_ambassador nonce morning).2.length = 16 ∧
    (chiaki_rpcrypt_init nonce morning).ambassador =
        (chiaki_rpcrypt_bright_ambassador nonce morning).2 ∧
    (chiaki_rpcrypt_init nonce morning).bright =
        (chiaki_rpcrypt_bright_ambassador nonce morning).1 := by
  refine ⟨?_, ?_, ?_, ?_, rfl, rfl⟩
  · simp only [chiaki_rpcrypt_bright_ambassador, CHIAKI_KEY_BYTES, List.getElem?_map,
      List.getElem?_range hi, Option.map_some', ambassador_body_eq]
    rfl
  · simp only [chiaki_rpcrypt_bright_ambassador, CHIAKI_KEY_BYTES, List.getElem?_map,
      List.getElem?_range hi, Option.map_some', bright_body_eq _ _ _ (hn.getD_lt i)]
    rfl
  · simp [chiaki_rpcrypt_bright_ambassador, CHIAKI_KEY_BYTES]
  · simp [chiaki_rpcrypt_bright_ambassador, CHIAKI_KEY_BYTES]

/-- C1 at a concrete input: nonce `0, 1, .., 15`, seed sixteen bytes `0xff`,
index 3. -/
theorem C1_bright_ambassador_formula_witness :
    (chiaki_rpcrypt_bright_ambassador (List.range 16) (List.replicate 16 0xff)).2[3]? =
        some ((((3 : Int) - 3 - 0x27) % 256).toNat ^^^ 0x9b) ∧
    (chiaki_rpcrypt_bright_ambassador (List.range 16) (List.replicate 16 0xff)).1[3]? =
        some ((((0xff : Int) - 3 + 0x34) % 256).toNat ^^^ 0x3a ^^^ 3) := by
  have h := C1_bright_ambassador_formula (List.range 16) (List.replicate 16 0xff)
    (by decide) 3 (by decide)
  exact ⟨h.1, h.2.1⟩

/-- C2: for nonce = seed = sixteen zero bytes the ambassador (obfuscation key)
is `D8 91 50 4D B0 ED 58 EB 9A EA 42 86 0E C6 24 9B` and the bright (cipher
key) is `D5 DF AE 0B ED 92 26 A8 D0 25 37 51 B8 15 E6 21`. -/
theorem C2_known_vector :
    (chiaki_rpcrypt_bright_ambassador zero16 zero16).2 =
      [0xD8, 0x91, 0x50, 0x4D, 0xB0, 0xED, 0x58, 0xEB, 0x9A, 0xEA, 0x42, 0x86, 0x0E, 0xC6, 0x24,
        0x9B] ∧
    (chiaki_rpcrypt_bright_ambassador zero16 zero16).1 =
      [0xD5, 0xDF, 0xAE, 0x0B, 0xED, 0x92, 0x26, 0xA8, 0xD0, 0x25, 0x37, 0x51, 0xB8, 0x15, 0xE6,
        0x21] ∧
    (chiaki_rpcrypt_init zero16 zero16).ambassador =
      [0xD8, 0x91, 0x50, 0x4D, 0xB0, 0xED, 0x58, 0xEB, 0x9A, 0xEA, 0x42, 0x86, 0x0E, 0xC6, 0x24,
        0x9B] ∧
    (chiaki_rpcrypt_init zero16 zero16).bright =
      [0xD5, 0xDF, 0xAE, 0x0B, 0xED, 0x92, 0x26, 0xA8, 0xD0, 0x25, 0x37, 0x51, 0xB8, 0x15, 0xE6,
        0x21] := by
  decide


/-! ## Auxiliary lemmas: CFB128 -/

theorem memwrite_length (mem out : List Nat) : (memwrite mem out).length = mem.length := by
  simp only [memwrite, List.length_append, List.length_take, List.length_drop]
  omega

theorem memwrite_of_length_eq {mem out : List Nat} (h : out.length = mem.length) :
    memwrite mem out = out := by
  simp [memwrite, ← h]

theorem cfb128_encrypt_length (E : List Nat → List Nat → List Nat) (key : List Nat)
    (data : List Nat) : ∀ (ivec : List Nat) (num : Nat),
    (cfb128_encrypt E key ivec num data).length = data.length := by
  induction data with
  | nil => intro ivec num; simp [cfb128_encrypt]
  | cons p ps ih => intro ivec num; simp [cfb128_encrypt, ih]

theorem cfb128_decrypt_length (E : List Nat → List Nat → List Nat) (key : List Nat)
    (data : List Nat) : ∀ (ivec : List Nat) (num : Nat),
    (cfb128_decrypt E key ivec num data).length = data.length := by
  induction data with
  | nil => intro ivec num; simp [cfb128_decrypt]
  | cons p ps ih => intro ivec num; simp [cfb128_decrypt, ih]

theorem cfb128_length (E : List Nat → List Nat → List Nat) (encrypt : Bool)
    (key iv data : List Nat) : (cfb128 E encrypt key iv data).length = data.length := by
  unfold cfb128; split
  · exact cfb128_encrypt_length E key data iv 0
  · exact cfb128_decrypt_length E key data iv 0

theorem cfb128_encrypt_take (E : List Nat → List Nat → List Nat) (key : List Nat)
    (data : List Nat) : ∀ (ivec : List Nat) (num k : Nat),
    (cfb128_encrypt E key ivec num data).take k = cfb128_encrypt E key ivec num (data.take k) := by
  induction data with
  | nil => intro ivec num k; simp [cfb128_encrypt]
  | cons p ps ih =>
    intro ivec num k
    cases k with
    | zero => simp [cfb128_encrypt]
    | succ k => simp [cfb128_encrypt, ih]

theorem cfb128_decrypt_take (E : List Nat → List Nat → List Nat) (key : List Nat)
    (data : List Nat) : ∀ (ivec : List Nat) (num k : Nat),
    (cfb128_decrypt E key ivec num data).take k = cfb128_decrypt E key ivec num (data.take k) := by
  induction data with
  | nil => intro ivec num k; simp [cfb128_decrypt]
  | cons p ps ih =>
    intro ivec num k
    cases k with
    | zero => simp [cfb128_decrypt]
    | succ k => simp [cfb128_decrypt, ih]

theorem cfb128_take (E : List Nat → List Nat → List Nat) (encrypt : Bool)
    (key iv data : List Nat) (k : Nat) :
    (cfb128 E encrypt key iv data).take k = cfb128 E encrypt key iv (data.take k) := by
  unfold cfb128; split
  · exact cfb128_encrypt_take E key data iv 0 k
  · exact cfb128_decrypt_take E key data iv 0 k

theorem cfb128_decrypt_encrypt (E : List Nat → List Nat → List Nat) (key : List Nat)
    (data : List Nat) : ∀ (ivec : List Nat) (num : Nat),
    cfb128_decrypt E key ivec num (cfb128_encrypt E key ivec num data) = data := by
  induction data with
  | nil => intro ivec num; simp [cfb128_encrypt, cfb128_decrypt]
  | cons p ps ih =>
    intro ivec num
    simp only [cfb128_encrypt, cfb128_decrypt, ih, Nat.xor_cancel_left]

theorem cfb128_encrypt_decrypt (E : List Nat → List Nat → List Nat) (key : List Nat)
    (data : List Nat) : ∀ (ivec : List Nat) (num : Nat),
    cfb128_encrypt E key ivec num (cfb128_decrypt E key ivec num data) = data := by
  induction data with
  | nil => intro ivec num; simp [cfb128_encrypt, cfb128_decrypt]
  | cons p ps ih =>
    intro ivec num
    simp only [cfb128_encrypt, cfb128_decrypt, Nat.xor_cancel_left, ih]

/-- The two directions of CFB128 undo each other. -/
theorem cfb128_inverse (E : List Nat → List Nat → List Nat) (encrypt : Bool)
    (key iv data : List Nat) :
    cfb128 E (!encrypt) key iv (cfb128 E encrypt key iv data) = data := by
  cases encrypt
  · simpa [cfb128] using cfb128_encrypt_decrypt E key data iv 0
  · simpa [cfb128] using cfb128_decrypt_encrypt E key data iv 0

theorem transform_eq (E : List Nat → List Nat → List Nat) (encrypt : Bool) (key iv : List Nat)
    (k : Nat) (data : List Nat) :
    transform E encrypt key iv k data = cfb128 E encrypt key iv (data.take k) ++ data.drop k := by
  unfold transform memwrite
  have hl := cfb128_length E encrypt key iv (data.take k)
  rw [List.take_of_length_le (by rw [hl]; simp), hl, List.length_take]
  congr 1
  by_cases h : k ≤ data.length
  · rw [Nat.min_eq_left h]
  · rw [Nat.min_eq_right (by omega), List.drop_of_length_le (le_refl _),
      List.drop_of_length_le (by omega)]

theorem transform_length (E : List Nat → List Nat → List Nat) (encrypt : Bool)
    (key iv : List Nat) (k : Nat) (data : List Nat) :
    (transform E encrypt key iv k data).length = data.length :=
  memwrite_length _ _

/-- The transform of a buffer does not depend on bytes appended to it. -/
theorem transform_append_take (E : List Nat → List Nat → List Nat) (encrypt : Bool)
    (key iv : List Nat) (k : Nat) (x y : List Nat) :
    (transform E encrypt key iv k (x ++ y)).take x.length = transform E encrypt key iv k x := by
  rw [transform_eq, transform_eq]
  by_cases h : k ≤ x.length
  · rw [List.take_append_of_le_length h, List.drop_append_of_le_length h,
      List.take_append_eq_append_take, cfb128_length, List.length_take, Nat.min_eq_left h,
      List.take_of_length_le (by rw [cfb128_length]; simp)]
    congr 1
    rw [List.take_append_eq_append_take, List.length_drop, Nat.sub_self, List.take_zero,
      List.append_nil, List.take_of_length_le (by simp)]
  · have hk : x.length ≤ k := by omega
    rw [List.take_append_eq_append_take, cfb128_take, List.take_take, Nat.min_eq_left hk,
      List.take_append_eq_append_take, Nat.sub_self, List.take_zero, List.append_nil,
      List.take_of_length_le (le_refl _), List.take_of_length_le hk,
      List.drop_of_length_le hk, List.append_nil]
    have : x.length - (cfb128 E encrypt key iv (List.take k (x ++ y))).length = 0 := by
      rw [cfb128_length, List.length_take, List.length_append]; omega
    rw [this, List.take_zero, List.append_nil]

/-- Transforming the first `k` bytes in one direction and then in the other
gives back the buffer. -/
theorem transform_inverse (E : List Nat → List Nat → List Nat) (encrypt : Bool)
    (key iv : List Nat) (k : Nat) (data : List Nat) :
    transform E (!encrypt) key iv k (transform E encrypt key iv k data) = data := by
  rw [transform_eq E (!encrypt), transform_eq E encrypt]
  have hl : (cfb128 E encrypt key iv (data.take k)).length = min k data.length := by
    rw [cfb128_length, List.length_take]
  have h1 : (cfb128 E encrypt key iv (data.take k) ++ data.drop k).take k
      = cfb128 E encrypt key iv (data.take k) := by
    rw [List.take_append_eq_append_take, hl, List.take_of_length_le (by rw [hl]; omega)]
    by_cases h : k ≤ data.length
    · rw [Nat.min_eq_left h, Nat.sub_self, List.take_zero, List.append_nil]
    · rw [List.drop_of_length_le (by omega), List.take_nil, List.append_nil]
  have h2 : (cfb128 E encrypt key iv (data.take k) ++ data.drop k).drop k = data.drop k := by
    rw [List.drop_append_eq_append_drop, hl, List.drop_of_length_le (by rw [hl]; omega)]
    by_cases h : k ≤ data.length
    · rw [Nat.min_eq_left h, Nat.sub_self, List.drop_zero, List.nil_append]
    · rw [List.drop_of_length_le (by omega : data.length ≤ k), List.drop_nil, List.nil_append]
  rw [h1, h2, cfb128_inverse, List.take_append_drop]


/-! ## Auxiliary lemmas: the control flow of `chiaki_rpcrypt_crypt` -/

theorem update_data_aligned {buf : List Nat} (h : buf.length % CHIAKI_KEY_BYTES = 0) :
    update_data buf = buf := by
  simp [update_data, expected_size, h]

theorem update_data_length_ge (buf : List Nat) : buf.length ≤ (update_data buf).length := by
  simp [update_data]

/-- The IV deriver reads the primitives only through `HMAC`. -/
theorem generate_iv_congr {P Q : Primitives} (h : Q.HMAC = P.HMAC) (rpcrypt : ChiakiRPCrypt)
    (counter : Nat) :
    chiaki_rpcrypt_generate_iv Q rpcrypt counter = chiaki_rpcrypt_generate_iv P rpcrypt counter := by
  simp only [chiaki_rpcrypt_generate_iv, h]

/-- Success of `chiaki_rpcrypt_crypt`, step by step. -/
theorem crypt_success_iff (P : Primitives) (rpcrypt : ChiakiRPCrypt) (counter : Nat)
    (buf : List Nat) (encrypt : Bool) :
    (chiaki_rpcrypt_crypt P rpcrypt counter buf encrypt).1 = CHIAKI_ERR_SUCCESS ↔
      P.ctx_new = true ∧
      ∃ iv, chiaki_rpcrypt_generate_iv P rpcrypt counter = .ok iv ∧
        P.cipher_init encrypt rpcrypt.bright iv = true ∧
        P.set_padding = true ∧
        (buf.length % CHIAKI_KEY_BYTES ≠ 0 → P.malloc (padded_size buf.length) = true) ∧
        (update_call P rpcrypt iv buf encrypt).ret = true ∧
        (update_call P rpcrypt iv buf encrypt).outl = int_of_size (expected_size buf.length) := by
  unfold chiaki_rpcrypt_crypt
  cases hctx : P.ctx_new
  · simp
  · cases hiv : chiaki_rpcrypt_generate_iv P rpcrypt counter with
    | error e =>
      cases e
      · simp [chiaki_rpcrypt_generate_iv] at hiv
        split at hiv
        · simp at hiv
        · split at hiv <;> simp at hiv
      · simp
      · simp
    | ok iv =>
      cases hinit : P.cipher_init encrypt rpcrypt.bright iv
      · simp [hinit]
      · cases hpad : P.set_padding
        · simp [hinit]
        · by_cases hal : buf.length % CHIAKI_KEY_BYTES = 0
          · have hd := update_data_aligned hal
            simp only [update_call, hd, expected_size, hal]
            cases hr : (P.cipher_update encrypt rpcrypt.bright iv buf
              (int_of_size buf.length)).ret
            · simp [hinit, hal, hr]
            · by_cases ho : (P.cipher_update encrypt rpcrypt.bright iv buf
                (int_of_size buf.length)).outl = int_of_size buf.length
              · simp [hinit, hal, hr, ho]
              · simp [hinit, hal, hr, ho]
          · cases hm : P.malloc (padded_size buf.length)
            · simp [hinit, hal, hm]
            · simp only [update_call, update_data, expected_size, hal]
              cases hr : (P.cipher_update encrypt rpcrypt.bright iv
                (buf ++ List.replicate (padded_size buf.length - buf.length) 0)
                (int_of_size (padded_size buf.length))).ret
              · simp [hinit, hal, hm, hr]
              · by_cases ho : (P.cipher_update encrypt rpcrypt.bright iv
                  (buf ++ List.replicate (padded_size buf.length - buf.length) 0)
                  (int_of_size (padded_size buf.length))).outl
                    = int_of_size (padded_size buf.length)
                · simp [hinit, hal, hm, hr, ho]
                · simp [hinit, hal, hm, hr, ho]


/-- The buffer left by a successful call: the first `buf_size` bytes of the
data the cipher-update primitive worked on, after its stores. -/
theorem crypt_success_buf (P : Primitives) (rpcrypt : ChiakiRPCrypt) (counter : Nat)
    (buf : List Nat) (encrypt : Bool) (iv : List Nat)
    (hiv : chiaki_rpcrypt_generate_iv P rpcrypt counter = .ok iv)
    (h : (chiaki_rpcrypt_crypt P rpcrypt counter buf encrypt).1 = CHIAKI_ERR_SUCCESS) :
    (chiaki_rpcrypt_crypt P rpcrypt counter buf encrypt).2 =
      (memwrite (update_data buf) (update_call P rpcrypt iv buf encrypt).out).take buf.length := by
  obtain ⟨hctx, iv2, hiv2, hinit, hpad, hmal, hret, houtl⟩ :=
    (crypt_success_iff P rpcrypt counter buf encrypt).1 h
  rw [hiv] at hiv2
  cases hiv2
  unfold chiaki_rpcrypt_crypt
  by_cases hal : buf.length % CHIAKI_KEY_BYTES = 0
  · simp only [update_call, update_data_aligned hal, expected_size, hal, ne_eq,
      not_true_eq_false, if_false] at hret houtl ⊢
    have hlen := memwrite_length buf (P.cipher_update encrypt rpcrypt.bright iv buf
      (int_of_size buf.length)).out
    rw [List.take_of_length_le (by omega)]
    simp [hctx, hiv, hinit, hpad, hret, houtl]
  · have hm := hmal hal
    simp only [update_call, update_data, expected_size, hal, ne_eq, not_false_eq_true,
      if_true] at hret houtl ⊢
    have hlen : ((memwrite (buf ++ List.replicate (padded_size buf.length - buf.length) 0)
        (P.cipher_update encrypt rpcrypt.bright iv
          (buf ++ List.replicate (padded_size buf.length - buf.length) 0)
          (int_of_size (padded_size buf.length))).out).take buf.length).length = buf.length := by
      rw [List.length_take, memwrite_length, List.length_append]
      omega
    simp [hctx, hiv, hinit, hpad, hm, hret, houtl, memwrite_of_length_eq hlen]

/-- With a CFB128 cipher over `E`, a successful call leaves the in-place
CFB128 transform of the first `(int)expected_size` bytes of the buffer. -/
theorem crypt_success_transform (P : Primitives) (E : List Nat → List Nat → List Nat)
    (hP : IsCFB128 P E) (rpcrypt : ChiakiRPCrypt) (counter : Nat)
    (buf : List Nat) (encrypt : Bool) (iv : List Nat)
    (hiv : chiaki_rpcrypt_generate_iv P rpcrypt counter = .ok iv)
    (h : (chiaki_rpcrypt_crypt P rpcrypt counter buf encrypt).1 = CHIAKI_ERR_SUCCESS) :
    (chiaki_rpcrypt_crypt P rpcrypt counter buf encrypt).2 =
      transform E encrypt rpcrypt.bright iv (int_of_size (expected_size buf.length)).toNat buf := by
  rw [crypt_success_buf P rpcrypt counter buf encrypt iv hiv h]
  obtain ⟨-, iv2, hiv2, -, -, -, hret, houtl⟩ := (crypt_success_iff P rpcrypt counter buf encrypt).1 h
  rw [hiv] at hiv2
  cases hiv2
  have hout := hP encrypt rpcrypt.bright iv (update_data buf)
    (int_of_size (expected_size buf.length)) hret houtl
  unfold update_call
  rw [hout]
  exact transform_append_take E encrypt rpcrypt.bright iv _ buf _

/-- The reference update primitive is CFB128 over its block function. -/
theorem nominal_isCFB128 (E : List Nat → List Nat → List Nat)
    (H : List Nat → List Nat → List Nat) : IsCFB128 (nominal E H) E := by
  intro encrypt key iv data inl hret houtl
  simp only [nominal, evp_update] at hret houtl ⊢
  split
  · rename_i hle
    simp only [hle, if_true] at hret houtl
    have h0 : inl = 0 := by simpa using hret
    subst h0
    cases encrypt <;> simp [cfb128, cfb128_encrypt, cfb128_decrypt]
  · rfl

/-! ## Round trip -/

/-- C3: round trip. With AES-128 an arbitrary block function `E` and the cipher
CFB128 over it (in the encrypting call, primitives `P`, and in the decrypting
call, primitives `Q`, which compute the same HMAC function), for every key
pair, counter and buffer of any length: if `chiaki_rpcrypt_encrypt` succeeds on
the buffer and `chiaki_rpcrypt_decrypt` succeeds on the result, the final
buffer equals the original one. -/
theorem C3_round_trip (P Q : Primitives) (E : List Nat → List Nat → List Nat)
    (hP : IsCFB128 P E) (hQ : IsCFB128 Q E) (hH : Q.HMAC = P.HMAC)
    (rpcrypt : ChiakiRPCrypt) (counter : Nat) (buf : List Nat)
    (henc : (chiaki_rpcrypt_encrypt P rpcrypt counter buf).1 = CHIAKI_ERR_SUCCESS)
    (hdec : (chiaki_rpcrypt_decrypt Q rpcrypt counter
      (chiaki_rpcrypt_encrypt P rpcrypt counter buf).2).1 = CHIAKI_ERR_SUCCESS) :
    (chiaki_rpcrypt_decrypt Q rpcrypt counter
      (chiaki_rpcrypt_encrypt P rpcrypt counter buf).2).2 = buf := by
  unfold chiaki_rpcrypt_encrypt chiaki_rpcrypt_decrypt at *
  obtain ⟨-, iv, hiv, -⟩ := (crypt_success_iff P rpcrypt counter buf true).1 henc
  have hivQ : chiaki_rpcrypt_generate_iv Q rpcrypt counter = .ok iv := by
    rw [generate_iv_congr hH, hiv]
  have he := crypt_success_transform P E hP rpcrypt counter buf true iv hiv henc
  rw [he] at hdec ⊢
  rw [crypt_success_transform Q E hQ rpcrypt counter _ false iv hivQ hdec, transform_length]
  exact transform_inverse E true rpcrypt.bright iv _ buf

/-- C3 at the concrete input of the spec: the 5-byte buffer `HELLO`, keys
derived from all-zero nonce and seed, counter 0. -/
theorem C3_round_trip_witness :
    (chiaki_rpcrypt_encrypt (nominal toy_block toy_digest) (chiaki_rpcrypt_init zero16 zero16) 0
      [72, 69, 76, 76, 79]).1 = CHIAKI_ERR_SUCCESS ∧
    (chiaki_rpcrypt_encrypt (nominal toy_block toy_digest) (chiaki_rpcrypt_init zero16 zero16) 0
      [72, 69, 76, 76, 79]).2 ≠ [72, 69, 76, 76, 79] ∧
    (chiaki_rpcrypt_decrypt (nominal toy_block toy_digest) (chiaki_rpcrypt_init zero16 zero16) 0
      (chiaki_rpcrypt_encrypt (nominal toy_block toy_digest) (chiaki_rpcrypt_init zero16 zero16) 0
        [72, 69, 76, 76, 79]).2).2 = [72, 69, 76, 76, 79] :=
  ⟨by decide, by decide,
    C3_round_trip (nominal toy_block toy_digest) (nominal toy_block toy_digest) toy_block
      (nominal_isCFB128 toy_block toy_digest) (nominal_isCFB128 toy_block toy_digest) rfl
      (chiaki_rpcrypt_init zero16 zero16) 0 [72, 69, 76, 76, 79] (by decide) (by decide)⟩


/-! ## IV deriver -/

theorem counter_byte_eq (counter s : Nat) :
    u8 (((counter >>> s) &&& 0xff : Nat) : Int) = counter / 2 ^ s % 256 := by
  have h : (counter >>> s) &&& 0xff = counter / 2 ^ s % 256 := by
    rw [Nat.shiftRight_eq_div_pow]
    exact Nat.and_pow_two_sub_one_eq_mod _ 8
  rw [h]
  exact u8_of_lt (Nat.mod_lt _ (by decide))

theorem generate_iv_buf_eq (rpcrypt : ChiakiRPCrypt) (counter : Nat) :
    generate_iv_buf rpcrypt counter =
      rpcrypt.ambassador.take 16 ++ spec_counter_bytes counter := by
  simp only [generate_iv_buf, counter_byte_eq, CHIAKI_KEY_BYTES]
  rfl

theorem be_value_counter_bytes (counter : Nat) :
    be_value (spec_counter_bytes counter) = counter % 2 ^ 64 := by
  simp only [spec_counter_bytes, be_value, List.range, List.range.loop, List.map, List.foldl]
  norm_num
  omega

/-- C4: for every key pair (ambassador of 16 bytes) and every counter,
`chiaki_rpcrypt_generate_iv` calls HMAC with the key
`AC 07 88 83 C8 3A 1F E8 11 46 3A F3 9E E3 E3 77` on a message of exactly 24
bytes, the 16 ambassador bytes followed by the 8 big-endian bytes of the
counter (whose big-endian value is the 64-bit counter); if HMAC fails or
reports fewer than 16 digest bytes the result is `CHIAKI_ERR_UNKNOWN`, and
otherwise the call succeeds with the IV equal to the first 16 bytes of the
digest, which is 16 bytes long. -/
theorem C4_generate_iv (P : Primitives) (rpcrypt : ChiakiRPCrypt) (counter : Nat)
    (hk : rpcrypt.ambassador.length = 16) :
    generate_iv_buf rpcrypt counter = rpcrypt.ambassador ++ spec_counter_bytes counter ∧
    (generate_iv_buf rpcrypt counter).length = 24 ∧
    be_value ((generate_iv_buf rpcrypt counter).drop 16) = counter % 2 ^ 64 ∧
    chiaki_rpcrypt_generate_iv P rpcrypt counter =
      (match P.HMAC [0xAC, 0x07, 0x88, 0x83, 0xC8, 0x3A, 0x1F, 0xE8, 0x11, 0x46, 0x3A, 0xF3, 0x9E,
          0xE3, 0xE3, 0x77] (rpcrypt.ambassador ++ spec_counter_bytes counter) with
        | none => .error CHIAKI_ERR_UNKNOWN
        | some digest =>
          if digest.length < 16 then .error CHIAKI_ERR_UNKNOWN else .ok (digest.take 16)) ∧
    (∀ iv, chiaki_rpcrypt_generate_iv P rpcrypt counter = .ok iv → iv.length = 16) ∧
    (∀ e, chiaki_rpcrypt_generate_iv P rpcrypt counter = .error e → e = CHIAKI_ERR_UNKNOWN) := by
  have hbuf : generate_iv_buf rpcrypt counter =
      rpcrypt.ambassador ++ spec_counter_bytes counter := by
    rw [generate_iv_buf_eq, List.take_of_length_le (by omega)]
  have hkey : hmac_key.take CHIAKI_KEY_BYTES = [0xAC, 0x07, 0x88, 0x83, 0xC8, 0x3A, 0x1F, 0xE8,
      0x11, 0x46, 0x3A, 0xF3, 0x9E, 0xE3, 0xE3, 0x77] := by decide
  refine ⟨hbuf, ?_, ?_, ?_, ?_, ?_⟩
  · rw [hbuf, List.length_append, hk]; rfl
  · rw [hbuf, List.drop_append_of_le_length (by omega), List.drop_of_length_le (by omega),
      List.nil_append, be_value_counter_bytes]
  · simp only [chiaki_rpcrypt_generate_iv, hbuf, hkey, CHIAKI_KEY_BYTES]
    rfl
  · intro iv h
    simp only [chiaki_rpcrypt_generate_iv, CHIAKI_KEY_BYTES] at h
    split at h
    · simp at h
    · split at h
      · simp at h
      · simp only [Except.ok.injEq] at h
        subst h
        rw [List.length_take]; omega
  · intro e h
    simp only [chiaki_rpcrypt_generate_iv, CHIAKI_KEY_BYTES] at h
    split at h
    · simp only [Except.error.injEq] at h; exact h.symm
    · split at h
      · simp only [Except.error.injEq] at h; exact h.symm
      · simp at h

/-- C4 at a concrete input: the ambassador derived from the all-zero nonce and
the counter `0x0102030405060708`. -/
theorem C4_generate_iv_witness :
    generate_iv_buf (chiaki_rpcrypt_init zero16 zero16) 0x0102030405060708 =
      [0xD8, 0x91, 0x50, 0x4D, 0xB0, 0xED, 0x58, 0xEB, 0x9A, 0xEA, 0x42, 0x86, 0x0E, 0xC6, 0x24,
        0x9B, 1, 2, 3, 4, 5, 6, 7, 8] ∧
    ∀ iv, chiaki_rpcrypt_generate_iv (nominal toy_block toy_digest)
      (chiaki_rpcrypt_init zero16 zero16) 0x0102030405060708 = .ok iv → iv.length = 16 :=
  have h := C4_generate_iv (nominal toy_block toy_digest) (chiaki_rpcrypt_init zero16 zero16)
    0x0102030405060708 (by decide)
  ⟨by decide, h.2.2.2.2.1⟩


/-! ## Key scrambler: reversibility -/

theorem ambassador_body_lt (i n : Nat) : ambassador_body i n < 256 := by
  rw [ambassador_body_eq]; exact xor_byte_lt (u8_lt _) (echo_a_lt i)

theorem bright_body_lt (i n m : Nat) : bright_body i n m < 256 := by
  unfold bright_body; exact u8_lt _

theorem spec_nonce_byte_lt (i a : Nat) : spec_nonce_byte i a < 256 := by
  unfold spec_nonce_byte; omega

theorem spec_seed_byte_lt (i n b : Nat) : spec_seed_byte i n b < 256 := by
  unfold spec_seed_byte; omega

theorem xor_xor_cancel_pair (x e n : Nat) : x ^^^ e ^^^ n ^^^ e ^^^ n = x := by
  rw [Nat.xor_assoc (x ^^^ e) n e, Nat.xor_comm n e, ← Nat.xor_assoc (x ^^^ e) e n,
    Nat.xor_cancel_right, Nat.xor_cancel_right]

theorem spec_nonce_byte_ambassador_body (i n : Nat) (hn : n < 256) :
    spec_nonce_byte i (ambassador_body i n) = n := by
  rw [ambassador_body_eq]
  unfold spec_nonce_byte
  rw [Nat.xor_cancel_right]
  unfold u8
  omega

theorem ambassador_body_spec_nonce_byte (i a : Nat) (ha : a < 256) :
    ambassador_body i (spec_nonce_byte i a) = a := by
  rw [ambassador_body_eq]
  unfold spec_nonce_byte
  have hx := xor_byte_lt ha (echo_a_lt i)
  have h : u8 ((((a ^^^ echo_a.getD i 0) + i + 0x27) % 256 : Nat) - (i : Int) - 0x27)
      = a ^^^ echo_a.getD i 0 := by
    unfold u8; omega
  rw [h, Nat.xor_cancel_right]

theorem spec_seed_byte_bright_body (i n m : Nat) (hi : i < 16) (hn : n < 256) (hm : m < 256) :
    spec_seed_byte i n (bright_body i n m) = m := by
  rw [bright_body_eq i n m hn]
  unfold spec_seed_byte
  rw [xor_xor_cancel_pair]
  unfold u8
  omega

theorem bright_body_spec_seed_byte (i n b : Nat) (hi : i < 16) (hn : n < 256) (hb : b < 256) :
    bright_body i n (spec_seed_byte i n b) = b := by
  rw [bright_body_eq i n _ hn]
  unfold spec_seed_byte
  have hx := xor_byte_lt (xor_byte_lt hb (echo_b_lt i)) hn
  have h : u8 ((((((b ^^^ echo_b.getD i 0 ^^^ n : Nat) : Int) + i - 0x34) % 256).toNat : Int)
      - (i : Int) + 0x34) = b ^^^ echo_b.getD i 0 ^^^ n := by
    unfold u8; omega
  rw [h, xor_xor_cancel_pair]

theorem getD_map_range (f : Nat → Nat) (i : Nat) (hi : i < 16) :
    ((List.range 16).map f).getD i 0 = f i := by
  rw [List.getD_eq_getElem?_getD, List.getElem?_map, List.getElem?_range hi]
  rfl

theorem map_range_getD {k : List Nat} (h : k.length = 16) :
    (List.range 16).map (fun i => k.getD i 0) = k := by
  apply List.ext_getElem
  · simp [h]
  · intro i h1 h2
    simp [List.getElem?_eq_getElem h2]

theorem isKey_map_range (f : Nat → Nat) (hf : ∀ i, f i < 256) : IsKey ((List.range 16).map f) := by
  refine ⟨by simp [CHIAKI_KEY_BYTES], ?_⟩
  intro b hb
  obtain ⟨i, -, rfl⟩ := List.mem_map.1 hb
  exact hf i

theorem unscramble_scramble (nonce morning : List Nat) (hn : IsKey nonce) (hm : IsKey morning) :
    spec_unscramble (chiaki_rpcrypt_bright_ambassador nonce morning).1
      (chiaki_rpcrypt_bright_ambassador nonce morning).2 = (nonce, morning) := by
  have h1 : (List.range 16).map (fun i => spec_nonce_byte i
      (((List.range 16).map fun i => ambassador_body i (nonce.getD i 0)).getD i 0)) = nonce := by
    rw [← map_range_getD hn.1]
    apply List.map_congr_left
    intro i hi
    have hi := List.mem_range.1 hi
    rw [getD_map_range _ i hi, map_range_getD hn.1,
      spec_nonce_byte_ambassador_body i _ (hn.getD_lt i)]
  simp only [spec_unscramble, chiaki_rpcrypt_bright_ambassador, CHIAKI_KEY_BYTES, h1]
  congr 1
  conv_rhs => rw [← map_range_getD hm.1]
  apply List.map_congr_left
  intro i hi
  have hi := List.mem_range.1 hi
  rw [getD_map_range _ i hi, spec_seed_byte_bright_body i _ _ hi (hn.getD_lt i) (hm.getD_lt i)]

theorem scramble_unscramble (bright ambassador : List Nat) (hb : IsKey bright)
    (ha : IsKey ambassador) :
    chiaki_rpcrypt_bright_ambassador (spec_unscramble bright ambassador).1
      (spec_unscramble bright ambassador).2 = (bright, ambassador) := by
  simp only [spec_unscramble, chiaki_rpcrypt_bright_ambassador, CHIAKI_KEY_BYTES]
  congr 1
  · conv_rhs => rw [← map_range_getD hb.1]
    apply List.map_congr_left
    intro i hi
    have hi := List.mem_range.1 hi
    simp only [getD_map_range _ i hi]
    rw [bright_body_spec_seed_byte i _ _ hi (spec_nonce_byte_lt _ _) (hb.getD_lt i)]
  · conv_rhs => rw [← map_range_getD ha.1]
    apply List.map_congr_left
    intro i hi
    have hi := List.mem_range.1 hi
    rw [getD_map_range _ i hi, ambassador_body_spec_nonce_byte i _ (ha.getD_lt i)]

theorem scramble_mem_keyPairs (nonce morning : List Nat) :
    chiaki_rpcrypt_bright_ambassador nonce morning ∈ KeyPairs :=
  ⟨isKey_map_range _ fun _ => bright_body_lt _ _ _,
    isKey_map_range _ fun _ => ambassador_body_lt _ _⟩

theorem unscramble_mem_keyPairs (bright ambassador : List Nat) :
    spec_unscramble bright ambassador ∈ KeyPairs :=
  ⟨isKey_map_range _ fun _ => spec_nonce_byte_lt _ _,
    isKey_map_range _ fun _ => spec_seed_byte_lt _ _ _⟩

/-- C5: the key scrambler is reversible. The map `(nonce, seed) -> (bright,
ambassador)` of `chiaki_rpcrypt_bright_ambassador` is a bijection of the pairs
of 16-byte arrays onto themselves, with the inverse given by
`nonce[i] = ((ambassador[i] XOR echo_a[i]) + i + 0x27) mod 256` and
`seed[i] = ((bright[i] XOR echo_b[i] XOR nonce[i]) + i - 0x34) mod 256`; and
at every position `i` the byte map `nonce[i] -> ambassador[i]` is a bijection on
bytes and, for every fixed `nonce[i]`, so is `seed[i] -> bright[i]`. -/
theorem C5_scrambler_bijective :
    Set.BijOn (fun p : List Nat × List Nat => chiaki_rpcrypt_bright_ambassador p.1 p.2)
      KeyPairs KeyPairs ∧
    (∀ p ∈ KeyPairs,
      spec_unscramble (chiaki_rpcrypt_bright_ambassador p.1 p.2).1
        (chiaki_rpcrypt_bright_ambassador p.1 p.2).2 = p) ∧
    (∀ q ∈ KeyPairs, spec_unscramble q.1 q.2 ∈ KeyPairs ∧
      chiaki_rpcrypt_bright_ambassador (spec_unscramble q.1 q.2).1 (spec_unscramble q.1 q.2).2
        = q) ∧
    (∀ i < 16, Set.BijOn (ambassador_body i) (Set.Iio 256) (Set.Iio 256) ∧
      Set.InvOn (spec_nonce_byte i) (ambassador_body i) (Set.Iio 256) (Set.Iio 256)) ∧
    (∀ i < 16, ∀ n < 256, Set.BijOn (bright_body i n) (Set.Iio 256) (Set.Iio 256) ∧
      Set.InvOn (spec_seed_byte i n) (bright_body i n) (Set.Iio 256) (Set.Iio 256)) := by
  have hinv : Set.InvOn (fun q : List Nat × List Nat => spec_unscramble q.1 q.2)
      (fun p : List Nat × List Nat => chiaki_rpcrypt_bright_ambassador p.1 p.2)
      KeyPairs KeyPairs :=
    ⟨fun p hp => unscramble_scramble p.1 p.2 hp.1 hp.2,
      fun q hq => scramble_unscramble q.1 q.2 hq.1 hq.2⟩
  refine ⟨hinv.bijOn (fun p _ => scramble_mem_keyPairs p.1 p.2)
      (fun q _ => unscramble_mem_keyPairs q.1 q.2),
    fun p hp => unscramble_scramble p.1 p.2 hp.1 hp.2,
    fun q hq => ⟨unscramble_mem_keyPairs q.1 q.2, scramble_unscramble q.1 q.2 hq.1 hq.2⟩,
    ?_, ?_⟩
  · intro i hi
    have h : Set.InvOn (spec_nonce_byte i) (ambassador_body i) (Set.Iio 256) (Set.Iio 256) :=
      ⟨fun n hn => spec_nonce_byte_ambassador_body i n hn,
        fun a ha => ambassador_body_spec_nonce_byte i a ha⟩
    exact ⟨h.bijOn (fun n _ => ambassador_body_lt i n) (fun a _ => spec_nonce_byte_lt i a), h⟩
  · intro i hi n hn
    have h : Set.InvOn (spec_seed_byte i n) (bright_body i n) (Set.Iio 256) (Set.Iio 256) :=
      ⟨fun m hm => spec_seed_byte_bright_body i n m hi hn hm,
        fun b hb => bright_body_spec_seed_byte i n b hi hn hb⟩
    exact ⟨h.bijOn (fun m _ => bright_body_lt i n m) (fun b _ => spec_seed_byte_lt i n b), h⟩


/-! ## Stream crypter: length check -/

theorem int_of_size_of_lt {x : Nat} (h : x < 2 ^ 31) : int_of_size x = (x : Int) := by
  unfold int_of_size
  have h1 : x % 2 ^ 32 = x := Nat.mod_eq_of_lt (by omega)
  rw [h1, if_pos h]

/-- While the expected length fits in an `int`, success means that the count
reported by the cipher update is the expected length. -/
theorem crypt_success_processed (P : Primitives) (rpcrypt : ChiakiRPCrypt) (counter : Nat)
    (buf : List Nat) (encrypt : Bool) (hsize : expected_size buf.length < 2 ^ 31)
    (h : (chiaki_rpcrypt_crypt P rpcrypt counter buf encrypt).1 = CHIAKI_ERR_SUCCESS) :
    ∃ iv, chiaki_rpcrypt_generate_iv P rpcrypt counter = .ok iv ∧
      (update_call P rpcrypt iv buf encrypt).outl = (expected_size buf.length : Int) := by
  obtain ⟨-, iv, hiv, -, -, -, -, houtl⟩ :=
    (crypt_success_iff P rpcrypt counter buf encrypt).1 h
  exact ⟨iv, hiv, by rw [houtl, int_of_size_of_lt hsize]⟩

theorem buf_4GiB_length : buf_4GiB.length = 2 ^ 32 := by
  simp only [buf_4GiB, List.length_replicate]

theorem expected_size_4GiB : expected_size buf_4GiB.length = 2 ^ 32 := by
  rw [buf_4GiB_length]; decide

theorem int_of_size_4GiB : int_of_size (2 ^ 32) = 0 := by decide

/-- C6, evaluated on a 4 GiB buffer: the expected length is `2 ^ 32`, the cast
`(int)buf_size` is 0, the cipher update is asked for 0 bytes, stores nothing and
reports `*outl = 0`; the call nevertheless returns `CHIAKI_ERR_SUCCESS` and
leaves the buffer as it was. -/
theorem C6_length_check_4GiB :
    expected_size buf_4GiB.length = 2 ^ 32 ∧
    (∀ iv, (update_call (nominal toy_block toy_digest) (chiaki_rpcrypt_init zero16 zero16) iv
      buf_4GiB true).outl = 0 ∧
      (update_call (nominal toy_block toy_digest) (chiaki_rpcrypt_init zero16 zero16) iv
        buf_4GiB true).out = []) ∧
    chiaki_rpcrypt_crypt (nominal toy_block toy_digest) (chiaki_rpcrypt_init zero16 zero16) 0
      buf_4GiB true = (CHIAKI_ERR_SUCCESS, buf_4GiB) := by
  have hcall : ∀ iv, update_call (nominal toy_block toy_digest)
      (chiaki_rpcrypt_init zero16 zero16) iv buf_4GiB true
        = { ret := true, outl := 0, out := [] } := by
    intro iv
    simp only [update_call, expected_size_4GiB, int_of_size_4GiB, nominal, evp_update]
    rfl
  have hiv : chiaki_rpcrypt_generate_iv (nominal toy_block toy_digest)
      (chiaki_rpcrypt_init zero16 zero16) 0
        = .ok ((toy_digest (hmac_key.take CHIAKI_KEY_BYTES)
            (generate_iv_buf (chiaki_rpcrypt_init zero16 zero16) 0)).take CHIAKI_KEY_BYTES) := by
    rfl
  have hs : (chiaki_rpcrypt_crypt (nominal toy_block toy_digest)
      (chiaki_rpcrypt_init zero16 zero16) 0 buf_4GiB true).1 = CHIAKI_ERR_SUCCESS := by
    rw [crypt_success_iff]
    refine ⟨rfl, _, hiv, rfl, rfl, fun _ => rfl, ?_, ?_⟩
    · rw [hcall]
    · rw [hcall, expected_size_4GiB, int_of_size_4GiB]
  refine ⟨expected_size_4GiB, fun iv => by rw [hcall]; exact ⟨rfl, rfl⟩, ?_⟩
  have hb := crypt_success_buf _ _ _ _ _ _ hiv hs
  rw [hcall] at hb
  have hal : buf_4GiB.length % CHIAKI_KEY_BYTES = 0 := by rw [buf_4GiB_length]; decide
  rw [update_data_aligned hal] at hb
  have hw : (memwrite buf_4GiB []).take buf_4GiB.length = buf_4GiB := by
    simp only [memwrite, List.take_nil, List.length_nil, List.drop_zero, List.nil_append,
      List.take_length]
  rw [hw] at hb
  exact Prod.ext hs hb

/-! ## Stream crypter: error codes -/

theorem generate_iv_error (P : Primitives) (rpcrypt : ChiakiRPCrypt) (counter : Nat)
    (e : ChiakiErrorCode) (h : chiaki_rpcrypt_generate_iv P rpcrypt counter = .error e) :
    e = CHIAKI_ERR_UNKNOWN := by
  simp only [chiaki_rpcrypt_generate_iv] at h
  split at h
  · simp only [Except.error.injEq] at h; exact h.symm
  · split at h
    · simp only [Except.error.injEq] at h; exact h.symm
    · simp at h

theorem generate_iv_ok_iff (P : Primitives) (rpcrypt : ChiakiRPCrypt) (counter : Nat)
    (iv : List Nat) :
    chiaki_rpcrypt_generate_iv P rpcrypt counter = .ok iv ↔
      ∃ digest, P.HMAC hmac_key (generate_iv_buf rpcrypt counter) = some digest ∧
        16 ≤ digest.length ∧ iv = digest.take 16 := by
  have hkey : hmac_key.take 16 = hmac_key := by decide
  simp only [chiaki_rpcrypt_generate_iv, CHIAKI_KEY_BYTES, hkey]
  cases hd : P.HMAC hmac_key (generate_iv_buf rpcrypt counter) with
  | none => simp
  | some d =>
    by_cases hl : d.length < 16
    · simp only [hl, if_true]
      constructor
      · intro h; cases h
      · rintro ⟨digest, h1, h2, -⟩
        cases h1
        omega
    · simp only [hl, if_false, Except.ok.injEq]
      constructor
      · intro h; exact ⟨d, rfl, by omega, h.symm⟩
      · rintro ⟨digest, h1, -, h3⟩
        cases h1
        exact h3.symm

/-- C7 as the code has it: when `EVP_CIPHER_CTX_new` returns null,
`chiaki_rpcrypt_encrypt` and `chiaki_rpcrypt_decrypt` return
`CHIAKI_ERR_UNKNOWN` and leave the buffer unchanged, for every key pair,
counter and buffer. -/
theorem C7_ctx_alloc_failure_unknown (P : Primitives) (rpcrypt : ChiakiRPCrypt) (counter : Nat)
    (buf : List Nat) (h : P.ctx_new = false) :
    chiaki_rpcrypt_encrypt P rpcrypt counter buf = (CHIAKI_ERR_UNKNOWN, buf) ∧
    chiaki_rpcrypt_decrypt P rpcrypt counter buf = (CHIAKI_ERR_UNKNOWN, buf) := by
  simp [chiaki_rpcrypt_encrypt, chiaki_rpcrypt_decrypt, chiaki_rpcrypt_crypt, h]

/-- C7 as the code has it, at a concrete input: a 17-byte buffer, counter 1. -/
theorem C7_ctx_alloc_failure_unknown_witness :
    (no_ctx toy_block toy_digest).ctx_new = false ∧
    chiaki_rpcrypt_encrypt (no_ctx toy_block toy_digest) (chiaki_rpcrypt_init zero16 zero16) 1
      (List.range 17) = (CHIAKI_ERR_UNKNOWN, List.range 17) ∧
    chiaki_rpcrypt_decrypt (no_ctx toy_block toy_digest) (chiaki_rpcrypt_init zero16 zero16) 1
      (List.range 17) = (CHIAKI_ERR_UNKNOWN, List.range 17) :=
  ⟨rfl, C7_ctx_alloc_failure_unknown (no_ctx toy_block toy_digest)
    (chiaki_rpcrypt_init zero16 zero16) 1 (List.range 17) rfl⟩

/-- C7 as stated fails: with a null cipher context, neither
`chiaki_rpcrypt_encrypt` nor `chiaki_rpcrypt_decrypt` returns
`CHIAKI_ERR_MEMORY` on the buffer `HELLO`. -/
theorem C7_ctx_alloc_failure_not_memory :
    (no_ctx toy_block toy_digest).ctx_new = false ∧
    (chiaki_rpcrypt_encrypt (no_ctx toy_block toy_digest) (chiaki_rpcrypt_init zero16 zero16) 0
      [72, 69, 76, 76, 79]).1 ≠ CHIAKI_ERR_MEMORY ∧
    (chiaki_rpcrypt_decrypt (no_ctx toy_block toy_digest) (chiaki_rpcrypt_init zero16 zero16) 0
      [72, 69, 76, 76, 79]).1 ≠ CHIAKI_ERR_MEMORY := by
  decide


/-- C8: atomicity on the scratch-copy path. For every buffer whose length is
not a multiple of 16, whenever `chiaki_rpcrypt_crypt` returns an error code
(any code other than `CHIAKI_ERR_SUCCESS`, whichever step failed), the
caller's buffer is unchanged. -/
theorem C8_scratch_path_atomic (P : Primitives) (rpcrypt : ChiakiRPCrypt) (counter : Nat)
    (buf : List Nat) (encrypt : Bool) (hlen : buf.length % 16 ≠ 0)
    (herr : (chiaki_rpcrypt_crypt P rpcrypt counter buf encrypt).1 ≠ CHIAKI_ERR_SUCCESS) :
    (chiaki_rpcrypt_crypt P rpcrypt counter buf encrypt).2 = buf := by
  revert herr
  unfold chiaki_rpcrypt_crypt
  cases hctx : P.ctx_new
  · simp
  · cases hiv : chiaki_rpcrypt_generate_iv P rpcrypt counter with
    | error e => simp
    | ok iv =>
      cases hinit : P.cipher_init encrypt rpcrypt.bright iv
      · simp [hinit]
      · cases hpad : P.set_padding
        · simp [hinit]
        · cases hm : P.malloc (padded_size buf.length)
          · simp [hinit, CHIAKI_KEY_BYTES, hlen, hm]
          · cases hr : (P.cipher_update encrypt rpcrypt.bright iv
              (buf ++ List.replicate (padded_size buf.length - buf.length) 0)
              (int_of_size (padded_size buf.length))).ret
            · simp [hinit, CHIAKI_KEY_BYTES, hlen, hm, hr]
            · by_cases ho : (P.cipher_update encrypt rpcrypt.bright iv
                (buf ++ List.replicate (padded_size buf.length - buf.length) 0)
                (int_of_size (padded_size buf.length))).outl
                  = int_of_size (padded_size buf.length)
              · simp [hinit, CHIAKI_KEY_BYTES, hlen, hm, hr, ho]
              · simp [hinit, CHIAKI_KEY_BYTES, hlen, hm, hr, ho]

/-- C8 at a concrete input: the cipher update has already overwritten the
scratch copy of `HELLO` when it reports failure; the call returns
`CHIAKI_ERR_UNKNOWN` and the buffer still reads `HELLO`. -/
theorem C8_scratch_path_atomic_witness :
    (update_call (update_fails toy_block toy_digest) (chiaki_rpcrypt_init zero16 zero16)
      ((toy_digest hmac_key (generate_iv_buf (chiaki_rpcrypt_init zero16 zero16) 0)).take 16)
      [72, 69, 76, 76, 79] true).out.take 5 ≠ [72, 69, 76, 76, 79] ∧
    (chiaki_rpcrypt_crypt (update_fails toy_block toy_digest) (chiaki_rpcrypt_init zero16 zero16) 0
      [72, 69, 76, 76, 79] true).1 = CHIAKI_ERR_UNKNOWN ∧
    (chiaki_rpcrypt_crypt (update_fails toy_block toy_digest) (chiaki_rpcrypt_init zero16 zero16) 0
      [72, 69, 76, 76, 79] true).2 = [72, 69, 76, 76, 79] :=
  ⟨by decide, by decide,
    C8_scratch_path_atomic (update_fails toy_block toy_digest) (chiaki_rpcrypt_init zero16 zero16)
      0 [72, 69, 76, 76, 79] true (by decide) (by decide)⟩

/-- C9: no failure is swallowed. `chiaki_rpcrypt_crypt` returns
`CHIAKI_ERR_SUCCESS` if and only if the context allocation succeeds, HMAC
succeeds with at least 16 digest bytes (the IV being the first 16), the cipher
initialisation and set-padding succeed, the scratch allocation succeeds when the
length is not a multiple of 16, the cipher update succeeds and the count it
reports equals the `int` it was given (the expected length cast to `int`); and
when the IV derivation fails, its error code is returned and the buffer is
unchanged. -/
theorem C9_no_failure_swallowed (P : Primitives) (rpcrypt : ChiakiRPCrypt) (counter : Nat)
    (buf : List Nat) (encrypt : Bool) :
    ((chiaki_rpcrypt_crypt P rpcrypt counter buf encrypt).1 = CHIAKI_ERR_SUCCESS ↔
      P.ctx_new = true ∧
      ∃ digest, P.HMAC hmac_key (generate_iv_buf rpcrypt counter) = some digest ∧
        16 ≤ digest.length ∧
        P.cipher_init encrypt rpcrypt.bright (digest.take 16) = true ∧
        P.set_padding = true ∧
        (buf.length % 16 ≠ 0 → P.malloc (padded_size buf.length) = true) ∧
        (update_call P rpcrypt (digest.take 16) buf encrypt).ret = true ∧
        (update_call P rpcrypt (digest.take 16) buf encrypt).outl
          = int_of_size (expected_size buf.length)) ∧
    (∀ e, chiaki_rpcrypt_generate_iv P rpcrypt counter = .error e →
      chiaki_rpcrypt_crypt P rpcrypt counter buf encrypt = (e, buf)) := by
  constructor
  · rw [crypt_success_iff]
    constructor
    · rintro ⟨hctx, iv, hiv, hinit, hpad, hm, hr, ho⟩
      obtain ⟨digest, hd, hl, rfl⟩ := (generate_iv_ok_iff P rpcrypt counter iv).1 hiv
      exact ⟨hctx, digest, hd, hl, hinit, hpad, hm, hr, ho⟩
    · rintro ⟨hctx, digest, hd, hl, hinit, hpad, hm, hr, ho⟩
      exact ⟨hctx, digest.take 16,
        (generate_iv_ok_iff P rpcrypt counter _).2 ⟨digest, hd, hl, rfl⟩, hinit, hpad, hm, hr, ho⟩
  · intro e he
    have hu := generate_iv_error P rpcrypt counter e he
    subst hu
    unfold chiaki_rpcrypt_crypt
    cases hctx : P.ctx_new
    · simp
    · simp [he]

/-- C9 at a concrete input: with fault-free primitives every step succeeds on
`HELLO`, so the call returns `CHIAKI_ERR_SUCCESS`. -/
theorem C9_no_failure_swallowed_witness :
    (chiaki_rpcrypt_crypt (nominal toy_block toy_digest) (chiaki_rpcrypt_init zero16 zero16) 0
      [72, 69, 76, 76, 79] true).1 = CHIAKI_ERR_SUCCESS :=
  (C9_no_failure_swallowed (nominal toy_block toy_digest) (chiaki_rpcrypt_init zero16 zero16) 0
    [72, 69, 76, 76, 79] true).1.2
    ⟨rfl, _, rfl, by decide, rfl, rfl, fun _ => rfl, by decide, by decide⟩

/-- C10: `chiaki_rpcrypt_crypt` returns `CHIAKI_ERR_MEMORY` if and only if the
buffer length is not a multiple of 16, the context allocation, the IV
derivation, the cipher initialisation and set-padding succeeded, and the
scratch allocation fails; a buffer whose length is a multiple of 16 never
yields `CHIAKI_ERR_MEMORY`, and a cipher initialisation failure yields
`CHIAKI_ERR_UNKNOWN`. -/
theorem C10_memory_error_iff (P : Primitives) (rpcrypt : ChiakiRPCrypt) (counter : Nat)
    (buf : List Nat) (encrypt : Bool) :
    ((chiaki_rpcrypt_crypt P rpcrypt counter buf encrypt).1 = CHIAKI_ERR_MEMORY ↔
      buf.length % 16 ≠ 0 ∧ P.ctx_new = true ∧
      (∃ iv, chiaki_rpcrypt_generate_iv P rpcrypt counter = .ok iv ∧
        P.cipher_init encrypt rpcrypt.bright iv = true) ∧
      P.set_padding = true ∧ P.malloc (padded_size buf.length) = false) ∧
    (buf.length % 16 = 0 →
      (chiaki_rpcrypt_crypt P rpcrypt counter buf encrypt).1 ≠ CHIAKI_ERR_MEMORY) ∧
    (∀ iv, P.ctx_new = true → chiaki_rpcrypt_generate_iv P rpcrypt counter = .ok iv →
      P.cipher_init encrypt rpcrypt.bright iv = false →
      chiaki_rpcrypt_crypt P rpcrypt counter buf encrypt = (CHIAKI_ERR_UNKNOWN, buf)) := by
  have key : (chiaki_rpcrypt_crypt P rpcrypt counter buf encrypt).1 = CHIAKI_ERR_MEMORY ↔
      buf.length % 16 ≠ 0 ∧ P.ctx_new = true ∧
      (∃ iv, chiaki_rpcrypt_generate_iv P rpcrypt counter = .ok iv ∧
        P.cipher_init encrypt rpcrypt.bright iv = true) ∧
      P.set_padding = true ∧ P.malloc (padded_size buf.length) = false := by
    unfold chiaki_rpcrypt_crypt
    cases hctx : P.ctx_new
    · simp
    · cases hiv : chiaki_rpcrypt_generate_iv P rpcrypt counter with
      | error e =>
        have hu := generate_iv_error P rpcrypt counter e hiv
        subst hu
        simp
      | ok iv =>
        cases hinit : P.cipher_init encrypt rpcrypt.bright iv
        · simp [hinit]
        · cases hpad : P.set_padding
          · simp [hinit]
          · by_cases hal : buf.length % 16 = 0
            · cases hr : (P.cipher_update encrypt rpcrypt.bright iv buf
                (int_of_size buf.length)).ret
              · simp [hinit, CHIAKI_KEY_BYTES, hal, hr]
              · by_cases ho : (P.cipher_update encrypt rpcrypt.bright iv buf
                  (int_of_size buf.length)).outl = int_of_size buf.length
                · simp [hinit, CHIAKI_KEY_BYTES, hal, hr, ho]
                · simp [hinit, CHIAKI_KEY_BYTES, hal, hr, ho]
            · cases hm : P.malloc (padded_size buf.length)
              · simp [hinit, CHIAKI_KEY_BYTES, hal, hm]
              · cases hr : (P.cipher_update encrypt rpcrypt.bright iv
                  (buf ++ List.replicate (padded_size buf.length - buf.length) 0)
                  (int_of_size (padded_size buf.length))).ret
                · simp [hinit, CHIAKI_KEY_BYTES, hal, hm, hr]
                · by_cases ho : (P.cipher_update encrypt rpcrypt.bright iv
                    (buf ++ List.replicate (padded_size buf.length - buf.length) 0)
                    (int_of_size (padded_size buf.length))).outl
                      = int_of_size (padded_size buf.length)
                  · simp [hinit, CHIAKI_KEY_BYTES, hal, hm, hr, ho]
                  · simp [hinit, CHIAKI_KEY_BYTES, hal, hm, hr, ho]
  refine ⟨key, ?_, ?_⟩
  · intro hal hmem
    exact (key.1 hmem).1 hal
  · intro iv hctx hiv hinit
    simp [chiaki_rpcrypt_crypt, hctx, hiv, hinit]


/-- C10 at a concrete input: `malloc` fails for the scratch copy of `HELLO`
after every earlier step succeeded, and the call returns `CHIAKI_ERR_MEMORY`. -/
theorem C10_memory_error_iff_witness :
    (chiaki_rpcrypt_crypt (no_malloc toy_block toy_digest) (chiaki_rpcrypt_init zero16 zero16) 0
      [72, 69, 76, 76, 79] false).1 = CHIAKI_ERR_MEMORY :=
  (C10_memory_error_iff (no_malloc toy_block toy_digest) (chiaki_rpcrypt_init zero16 zero16) 0
    [72, 69, 76, 76, 79] false).1.2 ⟨by decide, rfl, ⟨_, rfl, rfl⟩, rfl, rfl⟩


/-! ## Stream crypter: length of the buffer -/

theorem crypt_length (P : Primitives) (rpcrypt : ChiakiRPCrypt) (counter : Nat)
    (buf : List Nat) (encrypt : Bool) :
    (chiaki_rpcrypt_crypt P rpcrypt counter buf encrypt).2.length = buf.length := by
  unfold chiaki_rpcrypt_crypt
  split
  · rfl
  · split
    · rfl
    · dsimp only
      split_ifs <;> first | rfl | exact memwrite_length _ _

/-- C11: length preservation. For every key pair, counter and buffer, and
whatever the returned code, the buffer after `chiaki_rpcrypt_encrypt` and
after `chiaki_rpcrypt_decrypt` has the length it was supplied with; on success
it consists of the first `buf_size` bytes of the data the cipher update worked
on, so none of the padding bytes of the scratch copy is copied back. -/
theorem C11_length_preserved (P : Primitives) (rpcrypt : ChiakiRPCrypt) (counter : Nat)
    (buf : List Nat) :
    (chiaki_rpcrypt_encrypt P rpcrypt counter buf).2.length = buf.length ∧
    (chiaki_rpcrypt_decrypt P rpcrypt counter buf).2.length = buf.length ∧
    (∀ encrypt iv, chiaki_rpcrypt_generate_iv P rpcrypt counter = .ok iv →
      (chiaki_rpcrypt_crypt P rpcrypt counter buf encrypt).1 = CHIAKI_ERR_SUCCESS →
      (chiaki_rpcrypt_crypt P rpcrypt counter buf encrypt).2 =
        (memwrite (update_data buf) (update_call P rpcrypt iv buf encrypt).out).take
          buf.length) :=
  ⟨crypt_length P rpcrypt counter buf true, crypt_length P rpcrypt counter buf false,
    fun encrypt iv hiv h => crypt_success_buf P rpcrypt counter buf encrypt iv hiv h⟩


/-! ## IV deriver: the HMAC input -/

theorem generate_iv_buf_of_length (rpcrypt : ChiakiRPCrypt) (counter : Nat)
    (hk : rpcrypt.ambassador.length = 16) :
    generate_iv_buf rpcrypt counter = rpcrypt.ambassador ++ spec_counter_bytes counter := by
  rw [generate_iv_buf_eq, List.take_of_length_le (by omega)]

theorem spec_counter_bytes_length (counter : Nat) : (spec_counter_bytes counter).length = 8 := by
  simp [spec_counter_bytes]

theorem spec_counter_bytes_injective {c1 c2 : Nat} (h1 : c1 < 2 ^ 64) (h2 : c2 < 2 ^ 64)
    (h : spec_counter_bytes c1 = spec_counter_bytes c2) : c1 = c2 := by
  have hv := congrArg be_value h
  rw [be_value_counter_bytes, be_value_counter_bytes, Nat.mod_eq_of_lt h1,
    Nat.mod_eq_of_lt h2] at hv
  exact hv

/-- C15: the 24-byte HMAC input of `chiaki_rpcrypt_generate_iv` is an injective
function of (ambassador, counter). For 16-byte ambassador arrays and 64-bit
counters, two calls build the same message if and only if the ambassador
arrays are equal and the counters are equal; distinct counters under the same
key give distinct messages; and bytes 16..23 of the message, read as a
big-endian integer, are the counter. -/
theorem C15_hmac_input_injective (rp1 rp2 : ChiakiRPCrypt) (c1 c2 : Nat)
    (h1 : rp1.ambassador.length = 16) (h2 : rp2.ambassador.length = 16)
    (hc1 : c1 < 2 ^ 64) (hc2 : c2 < 2 ^ 64) :
    (generate_iv_buf rp1 c1 = generate_iv_buf rp2 c2 ↔
      rp1.ambassador = rp2.ambassador ∧ c1 = c2) ∧
    (c1 ≠ c2 → generate_iv_buf rp1 c1 ≠ generate_iv_buf rp1 c2) ∧
    (generate_iv_buf rp1 c1).length = 24 ∧
    be_value (((generate_iv_buf rp1 c1).drop 16).take 8) = c1 := by
  have hb1 := generate_iv_buf_of_length rp1 c1 h1
  have hb2 := generate_iv_buf_of_length rp2 c2 h2
  have hb3 := generate_iv_buf_of_length rp1 c2 h1
  refine ⟨?_, ?_, ?_, ?_⟩
  · rw [hb1, hb2]
    constructor
    · intro h
      obtain ⟨ha, hc⟩ := List.append_inj h (by rw [h1, h2])
      exact ⟨ha, spec_counter_bytes_injective hc1 hc2 hc⟩
    · rintro ⟨ha, hc⟩
      rw [ha, hc]
  · intro hne h
    rw [hb1, hb3] at h
    exact hne (spec_counter_bytes_injective hc1 hc2 (List.append_cancel_left h))
  · rw [hb1, List.length_append, h1, spec_counter_bytes_length]
  · rw [hb1, List.drop_append_of_le_length (by omega), List.drop_of_length_le (by omega),
      List.nil_append, List.take_of_length_le (by rw [spec_counter_bytes_length]),
      be_value_counter_bytes, Nat.mod_eq_of_lt hc1]

/-- C15 at a concrete input: the ambassador of the all-zero nonce with the
counters `0x0102030405060708` and `0x0102030405060709`. -/
theorem C15_hmac_input_injective_witness :
    generate_iv_buf (chiaki_rpcrypt_init zero16 zero16) 0x0102030405060708 ≠
      generate_iv_buf (chiaki_rpcrypt_init zero16 zero16) 0x0102030405060709 ∧
    be_value (((generate_iv_buf (chiaki_rpcrypt_init zero16 zero16) 0x0102030405060708).drop
      16).take 8) = 0x0102030405060708 :=
  have h := C15_hmac_input_injective (chiaki_rpcrypt_init zero16 zero16)
    (chiaki_rpcrypt_init zero16 zero16) 0x0102030405060708 0x0102030405060709
    (by decide) (by decide) (by decide) (by decide)
  ⟨h.2.1 (by decide), h.2.2.2⟩

/-! ## Stream crypter: the padded size -/

theorem padded_size_eq {n : Nat} (h : n ≤ 2 ^ 64 - 16) : padded_size n = (n + 15) / 16 * 16 := by
  unfold padded_size CHIAKI_KEY_BYTES SIZE_BITS
  omega

/-- C16: for every buffer whose length `buf_size` is not a multiple of 16 and
is at most `2 ^ 64 - 16`, the computed `padded_size` is
`((buf_size + 15) / 16) * 16`, the least multiple of 16 that is at least
`buf_size`, with `buf_size < padded_size < buf_size + 16`; and the scratch copy
handed to the cipher update is the buffer followed by exactly
`padded_size - buf_size` zero bytes, `padded_size` bytes in all. -/
theorem C16_padded_size (buf : List Nat) (hrem : buf.length % 16 ≠ 0)
    (hmax : buf.length ≤ 2 ^ 64 - 16) :
    padded_size buf.length = (buf.length + 15) / 16 * 16 ∧
    padded_size buf.length % 16 = 0 ∧
    buf.length < padded_size buf.length ∧
    padded_size buf.length < buf.length + 16 ∧
    (∀ m, m % 16 = 0 → buf.length ≤ m → padded_size buf.length ≤ m) ∧
    expected_size buf.length = padded_size buf.length ∧
    update_data buf = buf ++ List.replicate (padded_size buf.length - buf.length) 0 ∧
    (update_data buf).length = padded_size buf.length := by
  have hp := padded_size_eq hmax
  have he : expected_size buf.length = padded_size buf.length := by
    simp [expected_size, CHIAKI_KEY_BYTES, hrem]
  refine ⟨hp, by omega, by omega, by omega, fun m hm hle => by omega, he, ?_, ?_⟩
  · rw [update_data, he]
  · rw [update_data, he, List.length_append, List.length_replicate]
    omega

/-- C16 at a concrete input: the 5-byte buffer `HELLO` is padded to 16 bytes
with 11 zero bytes. -/
theorem C16_padded_size_witness :
    padded_size 5 = 16 ∧
    update_data [72, 69, 76, 76, 79] = [72, 69, 76, 76, 79, 0, 0, 0, 0, 0, 0, 0, 0, 0, 0, 0] :=
  have h := C16_padded_size [72, 69, 76, 76, 79] (by decide) (by decide)
  ⟨by decide, h.2.2.2.2.2.2.1.trans (by decide)⟩

/-! ## IV deriver: independence of the seed -/

theorem generate_iv_congr_ambassador (P : Primitives) (rp1 rp2 : ChiakiRPCrypt) (counter : Nat)
    (h : rp1.ambassador = rp2.ambassador) :
    chiaki_rpcrypt_generate_iv P rp1 counter = chiaki_rpcrypt_generate_iv P rp2 counter := by
  simp only [chiaki_rpcrypt_generate_iv, generate_iv_buf, h]

/-- C17: the IV does not depend on the seed or the cipher key. For every nonce,
every two seeds and every counter, the states built by `chiaki_rpcrypt_init`
have the same ambassador (it is computed from the nonce alone) and
`chiaki_rpcrypt_generate_iv` returns the same result on both; more generally
any two states with the same ambassador, whatever their bright, give the
same result. -/
theorem C17_iv_independent_of_seed (P : Primitives) (nonce seed1 seed2 : List Nat)
    (counter : Nat) :
    (chiaki_rpcrypt_init nonce seed1).ambassador = (chiaki_rpcrypt_init nonce seed2).ambassador ∧
    chiaki_rpcrypt_generate_iv P (chiaki_rpcrypt_init nonce seed1) counter =
      chiaki_rpcrypt_generate_iv P (chiaki_rpcrypt_init nonce seed2) counter ∧
    (∀ rp1 rp2 : ChiakiRPCrypt, rp1.ambassador = rp2.ambassador →
      chiaki_rpcrypt_generate_iv P rp1 counter = chiaki_rpcrypt_generate_iv P rp2 counter) :=
  ⟨rfl, generate_iv_congr_ambassador P _ _ counter rfl,
    fun rp1 rp2 h => generate_iv_congr_ambassador P rp1 rp2 counter h⟩


/-! ## Stream crypter: inverse directions and direct CFB128 -/

/-- A successful call in one direction followed by a successful call in the
other direction, with the same key pair and counter, gives back the buffer. -/
theorem crypt_inverse (P Q : Primitives) (E : List Nat → List Nat → List Nat)
    (hP : IsCFB128 P E) (hQ : IsCFB128 Q E) (hH : Q.HMAC = P.HMAC)
    (rpcrypt : ChiakiRPCrypt) (counter : Nat) (buf : List Nat) (encrypt : Bool)
    (h1 : (chiaki_rpcrypt_crypt P rpcrypt counter buf encrypt).1 = CHIAKI_ERR_SUCCESS)
    (h2 : (chiaki_rpcrypt_crypt Q rpcrypt counter
      (chiaki_rpcrypt_crypt P rpcrypt counter buf encrypt).2 (!encrypt)).1 = CHIAKI_ERR_SUCCESS) :
    (chiaki_rpcrypt_crypt Q rpcrypt counter
      (chiaki_rpcrypt_crypt P rpcrypt counter buf encrypt).2 (!encrypt)).2 = buf := by
  obtain ⟨-, iv, hiv, -⟩ := (crypt_success_iff P rpcrypt counter buf encrypt).1 h1
  have hivQ : chiaki_rpcrypt_generate_iv Q rpcrypt counter = .ok iv := by
    rw [generate_iv_congr hH, hiv]
  have he := crypt_success_transform P E hP rpcrypt counter buf encrypt iv hiv h1
  rw [he] at h2 ⊢
  rw [crypt_success_transform Q E hQ rpcrypt counter _ (!encrypt) iv hivQ h2, transform_length]
  exact transform_inverse E encrypt rpcrypt.bright iv _ buf

/-- The fault-free primitives succeed on every buffer whose expected length
fits in an `int`, provided the digest has at least 16 bytes. -/
theorem nominal_success (E : List Nat → List Nat → List Nat)
    (H : List Nat → List Nat → List Nat) (hH : ∀ key msg, 16 ≤ (H key msg).length)
    (rpcrypt : ChiakiRPCrypt) (counter : Nat) (buf : List Nat) (encrypt : Bool)
    (hsize : expected_size buf.length < 2 ^ 31) :
    (chiaki_rpcrypt_crypt (nominal E H) rpcrypt counter buf encrypt).1 = CHIAKI_ERR_SUCCESS := by
  rw [crypt_success_iff]
  refine ⟨rfl, (H hmac_key (generate_iv_buf rpcrypt counter)).take 16,
    (generate_iv_ok_iff _ _ _ _).2 ⟨_, rfl, hH _ _, rfl⟩, rfl, rfl, fun _ => rfl, ?_, ?_⟩
  · simp only [update_call, nominal, evp_update, int_of_size_of_lt hsize]
    split
    · rename_i h
      have h0 : expected_size buf.length = 0 := by omega
      simp [h0]
    · rfl
  · simp only [update_call, nominal, evp_update, int_of_size_of_lt hsize]
    split
    · rename_i h
      show (0 : Int) = _
      omega
    · rfl

theorem toy_digest_length (key msg : List Nat) : 16 ≤ (toy_digest key msg).length := by
  simp [toy_digest]

theorem expected_size_bounds {n : Nat} (h : n ≤ 2 ^ 64 - 16) :
    n ≤ expected_size n ∧ expected_size n < n + 16 := by
  unfold expected_size padded_size CHIAKI_KEY_BYTES SIZE_BITS
  split <;> omega

/-- While the buffer length is below `2 ^ 31 - 16`, a successful call leaves
exactly the CFB128 transform of the buffer itself. -/
theorem crypt_success_cfb128 (P : Primitives) (E : List Nat → List Nat → List Nat)
    (hP : IsCFB128 P E) (rpcrypt : ChiakiRPCrypt) (counter : Nat)
    (buf : List Nat) (encrypt : Bool) (iv : List Nat)
    (hsmall : buf.length < 2 ^ 31 - 16)
    (hiv : chiaki_rpcrypt_generate_iv P rpcrypt counter = .ok iv)
    (h : (chiaki_rpcrypt_crypt P rpcrypt counter buf encrypt).1 = CHIAKI_ERR_SUCCESS) :
    (chiaki_rpcrypt_crypt P rpcrypt counter buf encrypt).2 =
      cfb128 E encrypt rpcrypt.bright iv buf := by
  have hb := expected_size_bounds (n := buf.length) (by omega)
  rw [crypt_success_transform P E hP rpcrypt counter buf encrypt iv hiv h,
    int_of_size_of_lt (by omega), Int.toNat_ofNat, transform_eq,
    List.take_of_length_le hb.1, List.drop_of_length_le hb.1, List.append_nil]

/-- C14: reverse round trip. With the cipher CFB128 over an arbitrary block
function `E` in both calls and the same HMAC function, for every key pair,
counter and buffer of any length: if `chiaki_rpcrypt_decrypt` succeeds on the
buffer and `chiaki_rpcrypt_encrypt` succeeds on the result, the final buffer
equals the original one. And for every length `n` on which both functions
succeed, encryption and decryption are mutually inverse bijections of the
buffers of length `n`. -/
theorem C14_reverse_round_trip (P Q : Primitives) (E : List Nat → List Nat → List Nat)
    (hP : IsCFB128 P E) (hQ : IsCFB128 Q E) (hH : Q.HMAC = P.HMAC)
    (rpcrypt : ChiakiRPCrypt) (counter : Nat) :
    (∀ buf, (chiaki_rpcrypt_decrypt P rpcrypt counter buf).1 = CHIAKI_ERR_SUCCESS →
      (chiaki_rpcrypt_encrypt Q rpcrypt counter
        (chiaki_rpcrypt_decrypt P rpcrypt counter buf).2).1 = CHIAKI_ERR_SUCCESS →
      (chiaki_rpcrypt_encrypt Q rpcrypt counter
        (chiaki_rpcrypt_decrypt P rpcrypt counter buf).2).2 = buf) ∧
    (∀ n, (∀ buf ∈ Buffers n,
        (chiaki_rpcrypt_encrypt P rpcrypt counter buf).1 = CHIAKI_ERR_SUCCESS ∧
        (chiaki_rpcrypt_decrypt Q rpcrypt counter buf).1 = CHIAKI_ERR_SUCCESS) →
      Set.InvOn (fun b => (chiaki_rpcrypt_decrypt Q rpcrypt counter b).2)
        (fun b => (chiaki_rpcrypt_encrypt P rpcrypt counter b).2) (Buffers n) (Buffers n) ∧
      Set.BijOn (fun b => (chiaki_rpcrypt_encrypt P rpcrypt counter b).2)
        (Buffers n) (Buffers n) ∧
      Set.BijOn (fun b => (chiaki_rpcrypt_decrypt Q rpcrypt counter b).2)
        (Buffers n) (Buffers n)) := by
  constructor
  · intro buf h1 h2
    exact crypt_inverse P Q E hP hQ hH rpcrypt counter buf false h1 h2
  · intro n hsucc
    have hmapE : Set.MapsTo (fun b => (chiaki_rpcrypt_encrypt P rpcrypt counter b).2)
        (Buffers n) (Buffers n) := by
      intro b hb
      exact (crypt_length P rpcrypt counter b true).trans hb
    have hmapD : Set.MapsTo (fun b => (chiaki_rpcrypt_decrypt Q rpcrypt counter b).2)
        (Buffers n) (Buffers n) := by
      intro b hb
      exact (crypt_length Q rpcrypt counter b false).trans hb
    have hinv : Set.InvOn (fun b => (chiaki_rpcrypt_decrypt Q rpcrypt counter b).2)
        (fun b => (chiaki_rpcrypt_encrypt P rpcrypt counter b).2) (Buffers n) (Buffers n) := by
      constructor
      · intro b hb
        exact crypt_inverse P Q E hP hQ hH rpcrypt counter b true (hsucc b hb).1
          (hsucc _ (hmapE hb)).2
      · intro b hb
        exact crypt_inverse Q P E hQ hP hH.symm rpcrypt counter b false (hsucc b hb).2
          (hsucc _ (hmapD hb)).1
    exact ⟨hinv, hinv.bijOn hmapE hmapD, hinv.symm.bijOn hmapD hmapE⟩

/-- C14 at a concrete input: decrypting and then encrypting the 17-byte buffer
`0, 1, .., 16` with the keys of the all-zero nonce and seed and counter 0
gives it back, and encryption permutes the 5-byte buffers. -/
theorem C14_reverse_round_trip_witness :
    (chiaki_rpcrypt_decrypt (nominal toy_block toy_digest) (chiaki_rpcrypt_init zero16 zero16) 0
      (List.range 17)).2 ≠ List.range 17 ∧
    (chiaki_rpcrypt_encrypt (nominal toy_block toy_digest) (chiaki_rpcrypt_init zero16 zero16) 0
      (chiaki_rpcrypt_decrypt (nominal toy_block toy_digest) (chiaki_rpcrypt_init zero16 zero16) 0
        (List.range 17)).2).2 = List.range 17 ∧
    Set.BijOn (fun b => (chiaki_rpcrypt_encrypt (nominal toy_block toy_digest)
      (chiaki_rpcrypt_init zero16 zero16) 0 b).2) (Buffers 5) (Buffers 5) :=
  have h := C14_reverse_round_trip (nominal toy_block toy_digest) (nominal toy_block toy_digest)
    toy_block (nominal_isCFB128 toy_block toy_digest) (nominal_isCFB128 toy_block toy_digest) rfl
    (chiaki_rpcrypt_init zero16 zero16) 0
  ⟨by decide, h.1 (List.range 17) (by decide) (by decide),
    (h.2 5 (fun buf hb =>
      have hsize : expected_size buf.length < 2 ^ 31 := by
        rw [show buf.length = 5 from hb]; decide
      ⟨nominal_success toy_block toy_digest toy_digest_length _ 0 buf true hsize,
        nominal_success toy_block toy_digest toy_digest_length _ 0 buf false hsize⟩)).2.1⟩


theorem buf_4GiB_1_length : buf_4GiB_1.length = 2 ^ 32 + 1 := by
  simp only [buf_4GiB_1, List.length_replicate]

theorem expected_size_4GiB_1 : expected_size buf_4GiB_1.length = 2 ^ 32 + 16 := by
  rw [buf_4GiB_1_length]; decide

theorem int_of_size_4GiB_16 : int_of_size (2 ^ 32 + 16) = 16 := by decide

/-- C13, evaluated on a buffer of `2 ^ 32 + 1` zero bytes (keys of the all-zero
nonce and seed, counter 0, encryption): `padded_size` is `2 ^ 32 + 16`, the cast
`(int)padded_size` is 16, so the cipher update transforms 16 bytes of the
scratch copy and the call returns `CHIAKI_ERR_SUCCESS`; byte 16 of the buffer
is still the plaintext byte 0, whereas CFB128 applied to the whole buffer has
156 at that position. -/
theorem C13_padding_4GiB_1 :
    buf_4GiB_1.length % 16 ≠ 0 ∧
    padded_size buf_4GiB_1.length = 2 ^ 32 + 16 ∧
    int_of_size (padded_size buf_4GiB_1.length) = 16 ∧
    chiaki_rpcrypt_generate_iv (nominal toy_block toy_digest)
      (chiaki_rpcrypt_init zero16 zero16) 0 =
        .ok [52, 187, 122, 109, 220, 6, 45, 176, 231, 13, 10, 144, 212, 66, 93, 87] ∧
    (chiaki_rpcrypt_crypt (nominal toy_block toy_digest) (chiaki_rpcrypt_init zero16 zero16) 0
      buf_4GiB_1 true).1 = CHIAKI_ERR_SUCCESS ∧
    (chiaki_rpcrypt_crypt (nominal toy_block toy_digest) (chiaki_rpcrypt_init zero16 zero16) 0
      buf_4GiB_1 true).2[16]? = some 0 ∧
    (cfb128 toy_block true (chiaki_rpcrypt_init zero16 zero16).bright
      [52, 187, 122, 109, 220, 6, 45, 176, 231, 13, 10, 144, 212, 66, 93, 87]
      buf_4GiB_1)[16]? = some 156 := by
  have hrem : buf_4GiB_1.length % 16 ≠ 0 := by rw [buf_4GiB_1_length]; decide
  have hpad : padded_size buf_4GiB_1.length = 2 ^ 32 + 16 := by
    rw [buf_4GiB_1_length]; decide
  have hiv : chiaki_rpcrypt_generate_iv (nominal toy_block toy_digest)
      (chiaki_rpcrypt_init zero16 zero16) 0 =
        .ok [52, 187, 122, 109, 220, 6, 45, 176, 231, 13, 10, 144, 212, 66, 93, 87] := by
    rfl
  have hcall : ∀ iv, update_call (nominal toy_block toy_digest)
      (chiaki_rpcrypt_init zero16 zero16) iv buf_4GiB_1 true
        = { ret := true, outl := 16,
            out := cfb128 toy_block true (chiaki_rpcrypt_init zero16 zero16).bright iv
              ((update_data buf_4GiB_1).take 16) } := by
    intro iv
    simp only [update_call, expected_size_4GiB_1, int_of_size_4GiB_16, nominal, evp_update]
    rw [if_neg (by decide)]
    rfl
  have hs : (chiaki_rpcrypt_crypt (nominal toy_block toy_digest)
      (chiaki_rpcrypt_init zero16 zero16) 0 buf_4GiB_1 true).1 = CHIAKI_ERR_SUCCESS := by
    rw [crypt_success_iff]
    refine ⟨rfl, _, hiv, rfl, rfl, fun _ => rfl, ?_, ?_⟩
    · rw [hcall]
    · rw [hcall, expected_size_4GiB_1, int_of_size_4GiB_16]
  refine ⟨hrem, hpad, by rw [hpad]; exact int_of_size_4GiB_16, hiv, hs, ?_, ?_⟩
  · rw [crypt_success_transform _ toy_block (nominal_isCFB128 toy_block toy_digest) _ _ _ _ _
      hiv hs, expected_size_4GiB_1, int_of_size_4GiB_16, transform_eq]
    have h16 : (16 : Int).toNat = 16 := rfl
    have hlen16 : (cfb128 toy_block true (chiaki_rpcrypt_init zero16 zero16).bright
        [52, 187, 122, 109, 220, 6, 45, 176, 231, 13, 10, 144, 212, 66, 93, 87]
        (List.take 16 buf_4GiB_1)).length = 16 := by
      rw [cfb128_length, List.length_take, buf_4GiB_1_length]
      decide
    rw [h16, List.getElem?_append_right (by rw [hlen16]), hlen16, List.getElem?_drop]
    simp only [buf_4GiB_1]
    rw [List.getElem?_replicate, if_pos (by decide)]
  · rw [← List.getElem?_take_of_lt (show 16 < 17 by decide), cfb128_take]
    simp only [buf_4GiB_1, List.take_replicate]
    rw [show min 17 (2 ^ 32 + 1) = 17 by decide]
    decide

end Chiaki
